import Mathlib

/-! # Reporting service: dense daily series and day-based pagination

A shallow embedding of `service/transaction/transaction.go` (package `transaction`):
the request type with `IsValidRangeDate`, and the two operations `Report` and `Reporting`.

Conventions of the embedding.

* Go `int` values are integers in the signed 64-bit range; sums and products that can leave
  that range are reduced with `wrap64`.
* `time.Time` is modelled to whole-second resolution as the number of seconds since
  0001-01-01 00:00:00 UTC (Go's zero time) together with a location; a `Location` is a
  fixed-offset zone (as `time.UTC` or `time.FixedZone`).  The calendar functions follow the
  proleptic Gregorian algorithms of Go's `time` package.
* The location of the clock (`time.Local`) can have clock changes.  Such a location is a
  `Zone`, with `time.Date` as Go computes it from the transitions of the zone, and
  `ReportingIn` is `Reporting` with the clock in a `Zone`; in a zone without clock changes it is
  `Reporting` (`reportingIn_fixedZone`).
* On whole-second times the `float64` expressions of `Reporting`
  (`math.Ceil(d.Hours() / 24)`, `math.Ceil(float64(days) / float64(limit))`) are exact, and are
  written with integer ceiling division.  The quotient of `Report`, whose count is not bounded,
  is written with the rounding of `float64` to 53 bits.
* The storage collaborator and the clock are parameters.
-/

namespace Transaction

/-! ## Machine integers -/

/-- Reduction of an integer to the signed 64-bit range (two's complement wrap-around). -/
def wrap64 (x : Int) : Int := (x + 2 ^ 63) % 2 ^ 64 - 2 ^ 63

/-- Ceiling of the quotient `a / b` for a positive divisor `b`. -/
def ceilDiv (a b : Int) : Int := -((-a) / b)

/-! ## Model of Go's `time` package -/

/-- A fixed-offset time zone: `offset` is in seconds east of UTC. -/
structure Location where
  offset : Int
deriving DecidableEq, Repr

/-- The zone `time.UTC`. -/
def UTC : Location := ⟨0⟩

/-- An instant (seconds since 0001-01-01 00:00:00 UTC) read in a location. -/
structure Time where
  sec : Int
  loc : Location
deriving DecidableEq, Repr

def secondsPerDay : Int := 86400

/-- `isLeap` of package `time`. -/
def isLeap (year : Int) : Bool :=
  year % 4 == 0 && (year % 100 != 0 || year % 400 == 0)

/-- Table `daysBefore` of package `time`: `daysBefore m` is the number of days of a non-leap
year before month `m + 1`. -/
def daysBefore (m : Int) : Int :=
  [0, 31, 59, 90, 120, 151, 181, 212, 243, 273, 304, 334, 365].getD m.toNat 0

/-- `daysSinceEpoch` of package `time`, with 0001-01-01 as day 0: the number of days before
January 1 of `year`, by 400-, 100- and 4-year cycles. -/
def daysSinceEpoch (year : Int) : Int :=
  let y := year - 1
  let n400 := y / 400
  let y := y - 400 * n400
  let n100 := y / 100
  let y := y - 100 * n100
  let n4 := y / 4
  let y := y - 4 * n4
  146097 * n400 + 36524 * n100 + 1461 * n4 + 365 * y

/-- `time.Date(year, month, day, hour, min, sec, 0, loc)`: out-of-range months carry into the
year, out-of-range days, hours, minutes and seconds carry into the day count. -/
def Date (year month day hour min sec : Int) (loc : Location) : Time :=
  let m := month - 1
  let year := year + m / 12
  let m := m % 12
  let d := daysSinceEpoch year + daysBefore m
  let d := if isLeap year && m + 1 ≥ 3 then d + 1 else d
  let d := d + (day - 1)
  ⟨d * secondsPerDay + (hour * 3600 + min * 60 + sec) - loc.offset, loc⟩

/-- Year and zero-based day of the year of a day count (`absDate` of package `time`). -/
def yearDay (days : Int) : Int × Int :=
  let n400 := days / 146097
  let d := days % 146097
  let n100 := d / 36524
  let n100 := n100 - n100 / 4
  let d := d - 36524 * n100
  let n4 := d / 1461
  let d := d - 1461 * n4
  let n := d / 365
  let n := n - n / 4
  let d := d - 365 * n
  (1 + 400 * n400 + 100 * n100 + 4 * n4 + n, d)

/-- Month and day of the month from the year and the zero-based day of the year (second half
of `absDate`). -/
def monthDay (year yday : Int) : Int × Int :=
  if isLeap year && yday == 31 + 29 - 1 then (2, 29)
  else
    let day := if isLeap year && yday > 31 + 29 - 1 then yday - 1 else yday
    let month := day / 31
    let e := daysBefore (month + 1)
    if day ≥ e then (month + 2, day - e + 1)
    else (month + 1, day - daysBefore month + 1)

namespace Time

/-- `IsZero`: the instant is January 1, year 1, 00:00:00 UTC. -/
def IsZero (t : Time) : Bool := t.sec == 0

/-- `After`: `t` is a later instant than `u`. -/
def After (t u : Time) : Bool := decide (u.sec < t.sec)

def Location (t : Time) : Transaction.Location := t.loc

/-- Local days since 0001-01-01 (the day count of the wall clock in the location). -/
def absDays (t : Time) : Int := (t.sec + t.loc.offset) / secondsPerDay

def Year (t : Time) : Int := (yearDay t.absDays).1

def Month (t : Time) : Int := (monthDay (yearDay t.absDays).1 (yearDay t.absDays).2).1

def Day (t : Time) : Int := (monthDay (yearDay t.absDays).1 (yearDay t.absDays).2).2

/-- Second of the local day, the `Clock` of the time as one number. -/
def secOfDay (t : Time) : Int := (t.sec + t.loc.offset) % secondsPerDay

/-- `AddDate(years, months, days)`. -/
def AddDate (t : Time) (years months days : Int) : Time :=
  Date (t.Year + years) (t.Month + months) (t.Day + days) 0 0 t.secOfDay t.loc

/-- `Add` of a whole number of seconds. -/
def AddSeconds (t : Time) (s : Int) : Time := ⟨t.sec + s, t.loc⟩

/-- `Sub`: the duration `t - u` in nanoseconds, saturating at the bounds of `time.Duration`. -/
def Sub (t u : Time) : Int :=
  let d := (t.sec - u.sec) * 1000000000
  if d > 2 ^ 63 - 1 then 2 ^ 63 - 1 else if d < -(2 ^ 63) then -(2 ^ 63) else d

end Time

/-- `Month.String`: the English name of the month, and a placeholder outside January to
December. -/
def monthName (m : Int) : String :=
  if 1 ≤ m ∧ m ≤ 12 then
    ["January", "February", "March", "April", "May", "June", "July", "August", "September",
      "October", "November", "December"].getD (m - 1).toNat ""
  else "%!Month(" ++ toString (m % 2 ^ 64) ++ ")"

/-- Decimal value of a digit character, if it is one. -/
def digitVal (c : Char) : Option Int :=
  if '0' ≤ c ∧ c ≤ '9' then some (c.toNat - 48) else none

/-- `time.Parse("2006-01", s)`: four year digits, a hyphen and two month digits with the month
in 1 to 12 and nothing after them give the first instant of that month in UTC; anything else is
a parse failure. -/
def parseYearMonth (s : String) : Option Time :=
  match s.toList with
  | [a, b, c, d, '-', e, f] =>
    match digitVal a, digitVal b, digitVal c, digitVal d, digitVal e, digitVal f with
    | some a, some b, some c, some d, some e, some f =>
      let month := 10 * e + f
      if month ≤ 0 ∨ 12 < month then none
      else some (Date (1000 * a + 100 * b + 10 * c + d) month 1 0 0 0 UTC)
    | _, _, _, _, _, _ => none
  | _ => none

/-! ## Model of `github.com/jinzhu/now` -/

/-- `now.With(t).BeginningOfMonth()`. -/
def BeginningOfMonth (t : Time) : Time := Date t.Year t.Month 1 0 0 0 t.loc

/-- `now.With(t).EndOfMonth()`: the instant just before the beginning of the next month (to
whole seconds, its last second). -/
def EndOfMonth (t : Time) : Time := ((BeginningOfMonth t).AddDate 0 1 0).AddSeconds (-1)

/-! ## Data model -/

/-- Error values of the storage collaborator. -/
abbrev Error := String

/-- Modelled from the spec: `schema.TransactionReport`, declared outside this file; one record
per day with a date and the amount as text (JSON fields `date` and `omzet`). -/
structure TransactionReport where
  Date : Time
  Omzet : String
deriving DecidableEq, Repr

/-- Modelled from the spec: `transaction.ReportFilter` of the repository package, with the
fields the service sets. -/
structure ReportFilter where
  MerchantID : Nat
  OutletID : Nat
  Date : Time
  StartDate : Time
  EndDate : Time
  Limit : Int
  Page : Int
deriving DecidableEq, Repr

/-- Modelled from the spec: `transaction.TransactionRepository`, the storage collaborator.  A
call returns either an error or its rows (`Report` also a total count). -/
structure TransactionRepository where
  Report : ReportFilter → Except Error (List TransactionReport × Int)
  Reporting : ReportFilter → Except Error (List TransactionReport)

structure TrxRequest where
  MerchantID : Nat
  MerchantName : String
  OutletID : Nat
  OutletName : String
  Date : String
  StartDate : Time
  EndDate : Time
  Limit : Int
  Page : Int
deriving DecidableEq, Repr

structure Pagination where
  Limit : Int
  Page : Int
  TotalPage : Int
deriving DecidableEq, Repr

structure Link where
  Current : String
  NextPage : String
  PervPage : String
deriving DecidableEq, Repr

structure TrxResponse where
  Pagination : Pagination
  Link : Link
  Data : List TransactionReport
deriving DecidableEq, Repr

/-- The zero `time.Time`. -/
def zeroTime : Time := ⟨0, UTC⟩

def TrxRequest.IsValidRangeDate (f : TrxRequest) : Bool :=
  if f.StartDate.IsZero || f.EndDate.IsZero then false
  else if f.StartDate.After f.EndDate then false
  else true

/-! ## Links -/

/-- The URL built by one of the link blocks: `url.Parse(uri)`, the query values `outlet_id`
(only when the outlet is positive), `limit` and `page` added, `q.Encode()` (keys in sorted
order) and `URL.String()`. -/
def buildURL (uri : String) (outletID : Nat) (limit page : Int) : String :=
  uri ++ "?" ++ "limit=" ++ toString limit ++
    (if outletID > 0 then "&outlet_id=" ++ toString outletID else "") ++
    "&page=" ++ toString page

/-- The three link blocks shared by `Report` and `Reporting`; `more` is `totalPage > 1`. -/
def buildLink (uri : String) (outletID : Nat) (limit page : Int) (more : Bool) : Link :=
  let link : Link := ⟨buildURL uri outletID limit page, "", ""⟩
  let link := if more then { link with NextPage := buildURL uri outletID limit (wrap64 (page + 1)) }
    else link
  let link := if page > 1 && more then { link with PervPage := buildURL uri outletID limit (page - 1) }
    else link
  link

/-! ## `Report` -/

/-- Lines 66-71 and 146-151: the defaults of limit and page. -/
def normalize (req : TrxRequest) : TrxRequest :=
  let req := if req.Limit ≤ 0 then { req with Limit := 10 } else req
  let req := if req.Page ≤ 0 then { req with Page := 1 } else req
  req

/-- Lines 73-76 of `Report`: the month token, or the clock when it does not parse or parses to
the zero time. -/
def reportDate (clock : Time) (date : String) : Time :=
  let tDate := (parseYearMonth date).getD zeroTime
  if tDate.IsZero then clock else tDate

/-- The filter `Report` hands to the collaborator (lines 78-84), for a normalised request. -/
def reportFilter (clock : Time) (req : TrxRequest) : ReportFilter :=
  { MerchantID := req.MerchantID, OutletID := req.OutletID, Date := reportDate clock req.Date,
    StartDate := zeroTime, EndDate := zeroTime, Limit := req.Limit, Page := req.Page }

/-- Nearest integer to `n / d`, ties to the even one: the rounding of `float64` arithmetic. -/
def roundHalfEven (n d : Nat) : Nat :=
  let q := n / d
  let r := n % d
  if 2 * r < d then q else if d < 2 * r then q + 1 else if q % 2 = 0 then q else q + 1

/-- The binary logarithm rounded down, by halving (at most `fuel` times). -/
def log2Floor : Nat → Nat → Nat
  | 0, _ => 0
  | fuel + 1, n => if 2 ≤ n then log2Floor fuel (n / 2) + 1 else 0

/-- The position of the leading bit of a positive number. -/
def ilog2 (n : Nat) : Nat := log2Floor n n

/-- `float64(n)` for a natural number `n`: the nearest number with a significand of 53 bits
(`n` itself below `2 ^ 53`). -/
def float64OfNat (n : Nat) : Nat :=
  if n < 2 ^ 53 then n
  else
    let e := ilog2 n - 52
    roundHalfEven n (2 ^ e) * 2 ^ e

/-- `math.Floor(a / b)` for `float64` values `a` and `b` that are positive integers: the
quotient rounded to a significand of 53 bits (`m * 2 ^ e` or `m / 2 ^ s` with
`2 ^ 52 ≤ m ≤ 2 ^ 53`), then rounded down. -/
def floorFloatQuot (a b : Nat) : Nat :=
  if 2 ^ 52 * b ≤ a then
    let e1 := ilog2 a - ilog2 b - 52
    let e := if 1 ≤ e1 ∧ a < 2 ^ 53 * b * 2 ^ (e1 - 1) then e1 - 1 else e1
    roundHalfEven a (b * 2 ^ e) * 2 ^ e
  else
    let s1 := 53 + ilog2 b - ilog2 a
    let s := if 2 ^ 52 * b ≤ a * 2 ^ (s1 - 1) then s1 - 1 else s1
    roundHalfEven (a * 2 ^ s) b / 2 ^ s

/-- Lines 89-92 of `Report`: the `float64` variable `totalPage`, which is
`math.Floor(float64(count) / float64(limit))`, and 1 when that is not above 0 (as it is for
every count that is not positive).  The limit is positive here. -/
def reportTotalPage (count limit : Int) : Int :=
  if count ≤ 0 then 1
  else
    let totalPage : Int :=
      (floorFloatQuot (float64OfNat count.toNat) (float64OfNat limit.toNat) : Nat)
    if totalPage ≤ 0 then 1 else totalPage

/-- Line 135, `int(totalPage)`: the conversion of a `float64` of integer value to `int`.  For
a value outside the range of `int` the result depends on the implementation; it is the one of
amd64 here. -/
def intOfFloat (x : Int) : Int :=
  if -(2 ^ 63) ≤ x ∧ x < 2 ^ 63 then x else -(2 ^ 63)

/-- `Transaction.Report`. -/
def Report (repo : TransactionRepository) (clock : Time) (req : TrxRequest) :
    Except Error TrxResponse :=
  let req := normalize req
  match repo.Report (reportFilter clock req) with
  | .error err => .error err
  | .ok (res, count) =>
    let totalPage := reportTotalPage count req.Limit
    let link := buildLink "http://localhost:3000/report" req.OutletID req.Limit req.Page
      (decide (totalPage > 1))
    .ok { Pagination := ⟨req.Limit, req.Page, intOfFloat totalPage⟩, Link := link, Data := res }

/-! ## `Reporting` -/

/-- Lines 153-162: an invalid range is replaced by the month of the clock. -/
def resolveRange (clock : Time) (req : TrxRequest) : TrxRequest :=
  if !req.IsValidRangeDate then
    let n := clock
    let start := Date n.Year n.Month 1 0 0 0 n.Location
    let e := EndOfMonth start
    { req with StartDate := start, EndDate := Date e.Year e.Month e.Day 23 59 59 n.Location }
  else req

/-- The filter `Reporting` hands to the collaborator (lines 164-169), for a resolved request. -/
def reportingFilter (req : TrxRequest) : ReportFilter :=
  { MerchantID := req.MerchantID, OutletID := req.OutletID, Date := zeroTime,
    StartDate := req.StartDate, EndDate := req.EndDate, Limit := 0, Page := 0 }

/-- Line 182: `int(math.Ceil(EndDate.Sub(StartDate).Hours() / 24))`, the duration in
nanoseconds over the nanoseconds of 24 hours, rounded up. -/
def totalDays (startDate endDate : Time) : Int :=
  ceilDiv (endDate.Sub startDate) (24 * 3600 * 1000000000)

/-- Lines 219-234: the search of `res[skip:]` for the first aggregate with the day of the month
and the month name of `date`.  The result is the amount and the new value of `skip`: on a match
the index of the match within `res[skip:]`, otherwise `"0"` and the old `skip`. -/
def findOmzet (date : Time) (skip : Nat) : List TransactionReport → Nat → String × Nat
  | [], _ => ("0", skip)
  | v :: rest, i =>
    let sameDay := date.Day == v.Date.Day
    let sameMonth := monthName date.Month == monthName v.Date.Month
    if sameDay && sameMonth then (v.Omzet, i) else findOmzet date skip rest (i + 1)

/-- The variables the day loop updates. -/
structure LoopState where
  day : Int
  skip : Nat
  data : List TransactionReport
deriving DecidableEq, Repr

/-- The constants of the day loop (lines 174-186). -/
structure LoopEnv where
  start : Time
  startEndDay : Int
  endYear : Int
  endMonth : Int
  endLocation : Location
  days : Int
  prevPage : Int
  nextPage : Int
  res : List TransactionReport

/-- Lines 202-239: the body of the day loop for an ordinal inside the window. -/
def loopBody (env : LoopEnv) (i : Int) (st : LoopState) : LoopState :=
  let (day, date) :=
    if st.day ≤ env.startEndDay then
      let d := st.day + i - 1
      (st.day, Date env.start.Year env.start.Month d 0 0 0 env.start.Location)
    else
      (1, Date env.endYear env.endMonth 1 0 0 0 env.endLocation)
  let (omzet, skip) := findOmzet date st.skip (env.res.drop st.skip) 0
  { day := day, skip := skip, data := st.data ++ [⟨date, omzet⟩] }

/-- Lines 192-240: the day loop from ordinal `i`, for at most `fuel` iterations. -/
def dayLoop (env : LoopEnv) : Nat → Int → LoopState → LoopState
  | 0, _, st => st
  | fuel + 1, i, st =>
    if i ≤ env.days then
      if i < env.prevPage then dayLoop env fuel (i + 1) st
      else if i > env.nextPage then st
      else dayLoop env fuel (i + 1) (loopBody env i st)
    else st

/-- Lines 174-186: the constants of the loop for a resolved request and the fetched rows. -/
def loopEnv (req : TrxRequest) (res : List TransactionReport) : LoopEnv :=
  { start := req.StartDate
    startEndDay := (EndOfMonth req.StartDate).Day
    endYear := req.EndDate.Year
    endMonth := req.EndDate.Month
    endLocation := req.EndDate.Location
    days := totalDays req.StartDate req.EndDate
    prevPage := wrap64 ((req.Page - 1) * req.Limit)
    nextPage := wrap64 (req.Page * req.Limit)
    res := res }

/-- Lines 188-191: the loop variables before the first iteration. -/
def initState (req : TrxRequest) : LoopState :=
  { day := (BeginningOfMonth req.StartDate).Day, skip := 0, data := [] }

/-- The state after the whole day loop: the loop runs once for each ordinal from 1 to `days`
unless it breaks earlier. -/
def runLoop (req : TrxRequest) (res : List TransactionReport) : LoopState :=
  dayLoop (loopEnv req res) (totalDays req.StartDate req.EndDate).toNat 1 (initState req)

/-- Lines 242-245 of `Reporting`: `math.Ceil(float64(days) / float64(limit))`, at least 1. -/
def reportingTotalPage (days limit : Int) : Int :=
  let totalPage := ceilDiv days limit
  if totalPage ≤ 0 then 1 else totalPage

/-- The request as `Reporting` leaves it behind its pointer: defaults applied and the range
resolved. -/
def resolve (clock : Time) (req : TrxRequest) : TrxRequest :=
  resolveRange clock (normalize req)

/-- `Transaction.Reporting`: the request as updated in place, and the returned pair as a
response or an error. -/
def Reporting (repo : TransactionRepository) (clock : Time) (req : TrxRequest) :
    TrxRequest × Except Error TrxResponse :=
  let req := resolve clock req
  match repo.Reporting (reportingFilter req) with
  | .error err => (req, .error err)
  | .ok res =>
    let days := totalDays req.StartDate req.EndDate
    let data := (runLoop req res).data
    let totalPage := reportingTotalPage days req.Limit
    let link := buildLink "http://localhost:3000/reporting" req.OutletID req.Limit req.Page
      (decide (totalPage > 1))
    (req, .ok { Pagination := ⟨req.Limit, req.Page, totalPage⟩, Link := link, Data := data })

/-! ## Calendar quantities used in the statements -/

/-- Number of days of a year. -/
def yearLen (year : Int) : Int := if isLeap year then 366 else 365

/-- Number of days of a month. -/
def lastDayOfMonth (year month : Int) : Int :=
  if month = 2 then (if isLeap year then 29 else 28)
  else if month = 4 ∨ month = 6 ∨ month = 9 ∨ month = 11 then 30
  else 31

/-- The body of `monthDay` with the leap-year test as a parameter. -/
def monthDayAux (leap : Bool) (yday : Int) : Int × Int :=
  if leap && yday == 31 + 29 - 1 then (2, 29)
  else
    let day := if leap && yday > 31 + 29 - 1 then yday - 1 else yday
    let month := day / 31
    let e := daysBefore (month + 1)
    if day ≥ e then (month + 2, day - e + 1)
    else (month + 1, day - daysBefore month + 1)

/-- The body of `lastDayOfMonth` with the leap-year test as a parameter. -/
def lastDayAux (leap : Bool) (month : Int) : Int :=
  if month = 2 then (if leap then 29 else 28)
  else if month = 4 ∨ month = 6 ∨ month = 9 ∨ month = 11 then 30
  else 31

/-- Zero-based day of the year of day `d` of month `m`, as `Date` adds it up. -/
def ydayAux (leap : Bool) (m d : Int) : Int :=
  (if leap && m ≥ 3 then daysBefore (m - 1) + 1 else daysBefore (m - 1)) + (d - 1)

/-! ## Quantities of the specification and sample inputs -/

/-- The row count the specification gives for a page:
`min(limit, totalDays - (page - 1) * limit)`, clamped to at least 0. -/
def specRowCount (limit totalDays page : Int) : Int :=
  max 0 (min limit (totalDays - (page - 1) * limit))

/-- The slice of the full dense series the specification gives for a page: the elements at the
1-based positions `(page - 1) * limit + 1` to `min (page * limit) totalDays`. -/
def specSlice (full : List TransactionReport) (limit totalDays page : Nat) :
    List TransactionReport :=
  (full.drop ((page - 1) * limit)).take (min (page * limit) totalDays - (page - 1) * limit)

/-- The date the specification gives for ordinal `i`: the day of the month of the start date
plus `i - 1` within the month of the start date, and after the last day of that month the days
1, 2, ... stamped with the year and month of the end date. -/
def specRowDate (startDate endDate : Time) (i : Int) : Time :=
  let d := startDate.Day + (i - 1)
  let last := lastDayOfMonth startDate.Year startDate.Month
  if d ≤ last then Date startDate.Year startDate.Month d 0 0 0 startDate.Location
  else Date endDate.Year endDate.Month (d - last) 0 0 0 endDate.Location

/-- The local day count of an instant read in a given location. -/
def dayNumberIn (loc : Location) (t : Time) : Int := (t.sec + loc.offset) / secondsPerDay

/-- The second of the local day of an instant read in a given location. -/
def secOfDayIn (loc : Location) (t : Time) : Int := (t.sec + loc.offset) % secondsPerDay

/-- The number of calendar days, read in `loc`, that the interval from `startDate` to `endDate`
touches: a partial first day and a partial last day count as whole days. -/
def calendarDaysSpanned (loc : Location) (startDate endDate : Time) : Int :=
  dayNumberIn loc endDate - dayNumberIn loc startDate + 1

/-- The value of `skip` after the first `n` iterations of the day loop. -/
def cursorAfter (req : TrxRequest) (res : List TransactionReport) (n : Nat) : Nat :=
  (dayLoop (loopEnv req res) n 1 (initState req)).skip

/-- The rows of a returned pair, if it is a response. -/
def dataOf (r : TrxRequest × Except Error TrxResponse) : Option (List TransactionReport) :=
  match r.2 with
  | .ok resp => some resp.Data
  | .error _ => none

/-- A request for a date range of merchant 1 with no outlet. -/
def rangeRequest (startDate endDate : Time) (limit page : Int) : TrxRequest :=
  { MerchantID := 1, MerchantName := "", OutletID := 0, OutletName := "", Date := "",
    StartDate := startDate, EndDate := endDate, Limit := limit, Page := page }

/-- A collaborator that returns the given rows whatever the filter. -/
def fixedRepo (res : List TransactionReport) : TransactionRepository :=
  ⟨fun _ => .ok (res, res.length), fun _ => .ok res⟩

/-- A collaborator whose calls fail with the given error. -/
def failingRepo (err : Error) : TransactionRepository :=
  ⟨fun _ => .error err, fun _ => .error err⟩

/-- Midnight UTC of a day of January 2024 (days past 31 run into the following months). -/
def jan2024 (day : Int) : Time := Date 2024 1 day 0 0 0 UTC

/-- Year, month and day of the month of a row. -/
def civil (r : TransactionReport) : Int × Int × Int := (r.Date.Year, r.Date.Month, r.Date.Day)

/-- Aggregates of 1, 2, 3, 12 and 13 January 2024, ascending by date. -/
def januaryAggregates : List TransactionReport :=
  [⟨jan2024 1, "100"⟩, ⟨jan2024 2, "200"⟩, ⟨jan2024 3, "300"⟩, ⟨jan2024 12, "1200"⟩,
    ⟨jan2024 13, "1300"⟩]

/-- The rule of the next and previous links for a response: the next link is present exactly
when there is more than one page and then carries the page plus one (as a Go `int`), the
previous link is present exactly when the page is above 1 and there is more than one page, and
then carries the page minus one. -/
def LinkRule (uri : String) (outletID : Nat) (resp : TrxResponse) : Prop :=
  (resp.Link.NextPage ≠ "" ↔ resp.Pagination.TotalPage > 1) ∧
  (resp.Pagination.TotalPage > 1 →
    resp.Link.NextPage
      = buildURL uri outletID resp.Pagination.Limit (wrap64 (resp.Pagination.Page + 1))) ∧
  (resp.Pagination.TotalPage > 1 → resp.Pagination.Page < 2 ^ 63 - 1 →
    resp.Link.NextPage = buildURL uri outletID resp.Pagination.Limit (resp.Pagination.Page + 1)) ∧
  (resp.Link.PervPage ≠ "" ↔ (resp.Pagination.Page > 1 ∧ resp.Pagination.TotalPage > 1)) ∧
  (resp.Pagination.Page > 1 ∧ resp.Pagination.TotalPage > 1 →
    resp.Link.PervPage = buildURL uri outletID resp.Pagination.Limit (resp.Pagination.Page - 1))

/-! ## The walk of the day loop -/

/-- The date of the row of ordinal `i` while the day counter is 1: the date
`time.Date(start.Year(), start.Month(), i, 0, 0, 0, 0, start.Location())`. -/
def rowDate (start : Time) (i : Int) : Time :=
  Date start.Year start.Month i 0 0 0 start.Location

/-- The integers from `lo` to `hi` in ascending order (none when `hi < lo`). -/
def ordinalsFromTo (lo hi : Int) : List Int :=
  (List.range (hi + 1 - lo).toNat).map fun (k : Nat) => lo + (k : Int)

/-- The control of the day loop alone: the ordinals for which the body runs, from ordinal `i`
and for at most `fuel` iterations. -/
def windowOrdinals (days prevPage nextPage : Int) : Nat → Int → List Int
  | 0, _ => []
  | fuel + 1, i =>
    if i ≤ days then
      if i < prevPage then windowOrdinals days prevPage nextPage fuel (i + 1)
      else if i > nextPage then []
      else i :: windowOrdinals days prevPage nextPage fuel (i + 1)
    else []

/-- The ordinals `Reporting` visits for a resolved request: those from 1 to `totalDays` that
are neither below `(page - 1) * limit` nor above `page * limit`. -/
def visitedOrdinals (req : TrxRequest) : List Int :=
  ordinalsFromTo (max 1 (wrap64 ((req.Page - 1) * req.Limit)))
    (min (totalDays req.StartDate req.EndDate) (wrap64 (req.Page * req.Limit)))

/-- An aggregate has the day of the month and the month of a date. -/
@[reducible] def sameDayMonth (date : Time) (v : TransactionReport) : Prop :=
  date.Day = v.Date.Day ∧ date.Month = v.Date.Month


/-- A list of aggregates is strictly ascending by date (by instant). -/
@[reducible] def sortedByDate (res : List TransactionReport) : Prop :=
  res.Pairwise fun a b => a.Date.sec < b.Date.sec

/-- No two aggregates of a list share the day of the month and the month. -/
@[reducible] def distinctDayMonth (res : List TransactionReport) : Prop :=
  res.Pairwise fun a b => ¬ (a.Date.Day = b.Date.Day ∧ a.Date.Month = b.Date.Month)

/-- A list of aggregates is strictly ascending by calendar day (each date read in its own
location). -/
@[reducible] def sortedByDay (res : List TransactionReport) : Prop :=
  res.Pairwise fun a b => a.Date.absDays < b.Date.absDays

/-- The order of a list of aggregates agrees with the order of the rows of the given ordinals:
whenever an aggregate comes before another in the list, every row that has the day of the month
and the month of the first comes before every row that has those of the second. -/
@[reducible] def inRowOrder (start : Time) (rows : List Int) (res : List TransactionReport) :
    Prop :=
  res.Pairwise fun u v => ∀ i ∈ rows, ∀ j ∈ rows,
    sameDayMonth (rowDate start i) u → sameDayMonth (rowDate start j) v → i < j

/-- The amount of a row is the literal zero or the amount of an aggregate of the list with the
day of the month and the month of the row. -/
@[reducible] def zeroOrMatch (res : List TransactionReport) (row : TransactionReport) : Prop :=
  row.Omzet = "0" ∨ ∃ v ∈ res, sameDayMonth row.Date v ∧ row.Omzet = v.Omzet

/-- The amount of a row is the amount of the aggregate with the day of the month and the month
of the row when there is one, and the literal zero otherwise. -/
@[reducible] def matchOrZero (res : List TransactionReport) (row : TransactionReport) : Prop :=
  (∀ v ∈ res, sameDayMonth row.Date v → row.Omzet = v.Omzet) ∧
  ((∀ v ∈ res, ¬ sameDayMonth row.Date v) → row.Omzet = "0")

/-- Aggregates of 2023-01-05 and 2024-01-03, ascending by date. -/
def twoYearAggregates : List TransactionReport :=
  [⟨Date 2023 1 5 0 0 0 UTC, "7"⟩, ⟨Date 2024 1 3 0 0 0 UTC, "9"⟩]

/-- Aggregates of 5 and 3 January 2024, in that order: not ascending by date. -/
def unsortedAggregates : List TransactionReport :=
  [⟨jan2024 5, "500"⟩, ⟨jan2024 3, "300"⟩]

/-- The current link as the specification describes it: the base URL and the query with
`limit`, then `outlet_id` when the outlet is non-zero, then `page`. -/
def specCurrentLink (base : String) (outletID : Nat) (limit page : Int) : String :=
  if outletID = 0 then base ++ "?limit=" ++ toString limit ++ "&page=" ++ toString page
  else base ++ "?limit=" ++ toString limit ++ "&outlet_id=" ++ toString outletID
    ++ "&page=" ++ toString page

/-- Aggregates of 2023-12-31 and 2024-01-01, ascending by date across the end of the year. -/
def yearEndAggregates : List TransactionReport :=
  [⟨Date 2023 12 31 0 0 0 UTC, "31"⟩, ⟨Date 2024 1 1 0 0 0 UTC, "1"⟩]

/-! ## Locations with clock changes

The default month of `Reporting` (lines 153-162) is built with `time.Date` in the location of
the clock, `time.Local`, and the loop builds the dates of the rows in the location of the start
date, which is then that location too.  `Location` above is a location without clock changes; a
location with daylight saving is a `Zone`, and `ReportingIn` is `Reporting` with the clock in a
`Zone`.  A time read in a zone is a `Time` with the offset in force at its instant. -/

/-- A location with clock changes: the offset `base` in force before the first transition, and
the transitions in ascending order, each the instant of a change and the offset in force from
it on (seconds since 0001-01-01 00:00:00 UTC, seconds east of UTC). -/
structure Zone where
  base : Int
  transitions : List (Int × Int)
deriving DecidableEq, Repr

/-- The period of a list of transitions that holds an instant: the offset in force and the
bounds of the period, where it has them. -/
def lookupFrom (offset : Int) (start : Option Int) :
    List (Int × Int) → Int → Int × Option Int × Option Int
  | [], _ => (offset, start, none)
  | (t, o) :: rest, sec =>
    if sec < t then (offset, start, some t) else lookupFrom o (some t) rest sec

namespace Zone

/-- `Location.lookup`: the offset in force at an instant, and the start and the end of the
period in which it is in force. -/
def lookup (z : Zone) (sec : Int) : Int × Option Int × Option Int :=
  lookupFrom z.base none z.transitions sec

/-- The offset in force at an instant. -/
def offsetAt (z : Zone) (sec : Int) : Int := (z.lookup sec).1

/-- An instant read in the zone: the instant with the offset in force at it. -/
def instant (z : Zone) (sec : Int) : Time := ⟨sec, ⟨z.offsetAt sec⟩⟩

/-- The offset `time.Date` takes for a wall time, given as the seconds `unix` that the wall
time would have in UTC: the offset in force at `unix` or, when the instant that this offset
gives lies outside the period in which it is in force, the offset in force at that instant. -/
def dateOffset (z : Zone) (unix : Int) : Int :=
  let offset := (z.lookup unix).1
  let start := (z.lookup unix).2.1
  let stop := (z.lookup unix).2.2
  if offset ≠ 0 then
    let utc := unix - offset
    if start.any (fun s => decide (utc < s)) || stop.any (fun e => decide (e ≤ utc)) then
      (z.lookup utc).1
    else offset
  else offset

/-- `time.Date(year, month, day, hour, min, sec, 0, loc)` for a location with clock changes. -/
def Date (z : Zone) (year month day hour min sec : Int) : Time :=
  let unix := (Transaction.Date year month day hour min sec UTC).sec
  z.instant (unix - z.dateOffset unix)

/-- `AddDate(years, months, days)` of a time in the zone. -/
def AddDate (z : Zone) (t : Time) (years months days : Int) : Time :=
  z.Date (t.Year + years) (t.Month + months) (t.Day + days) 0 0 t.secOfDay

/-- `now.With(t).BeginningOfMonth()` of a time in the zone. -/
def BeginningOfMonth (z : Zone) (t : Time) : Time := z.Date t.Year t.Month 1 0 0 0

/-- `now.With(t).EndOfMonth()` of a time in the zone. -/
def EndOfMonth (z : Zone) (t : Time) : Time :=
  z.instant ((z.AddDate (z.BeginningOfMonth t) 0 1 0).sec - 1)

/-- The wall time `wall` (the seconds it would have in UTC) is on the clocks of the zone: the
offset `time.Date` takes for it is in force at the instant that this offset gives, so that the
time `time.Date` returns shows the wall time asked for.  A wall time that a clock change skips
is not. -/
@[reducible] def settled (z : Zone) (wall : Int) : Prop :=
  z.offsetAt (wall - z.dateOffset wall) = z.dateOffset wall

end Zone

/-- Lines 153-162 with the clock in a zone: `clock` is the instant of `time.Now()`. -/
def resolveRangeIn (z : Zone) (clock : Int) (req : TrxRequest) : TrxRequest :=
  if !req.IsValidRangeDate then
    let n := z.instant clock
    let start := z.Date n.Year n.Month 1 0 0 0
    let e := z.EndOfMonth start
    { req with StartDate := start, EndDate := z.Date e.Year e.Month e.Day 23 59 59 }
  else req

/-- Lines 202-239 with the start date in a zone. -/
def loopBodyIn (z : Zone) (env : LoopEnv) (i : Int) (st : LoopState) : LoopState :=
  let (day, date) :=
    if st.day ≤ env.startEndDay then
      let d := st.day + i - 1
      (st.day, z.Date env.start.Year env.start.Month d 0 0 0)
    else
      (1, z.Date env.endYear env.endMonth 1 0 0 0)
  let (omzet, skip) := findOmzet date st.skip (env.res.drop st.skip) 0
  { day := day, skip := skip, data := st.data ++ [⟨date, omzet⟩] }

/-- Lines 192-240 with the start date in a zone. -/
def dayLoopIn (z : Zone) (env : LoopEnv) : Nat → Int → LoopState → LoopState
  | 0, _, st => st
  | fuel + 1, i, st =>
    if i ≤ env.days then
      if i < env.prevPage then dayLoopIn z env fuel (i + 1) st
      else if i > env.nextPage then st
      else dayLoopIn z env fuel (i + 1) (loopBodyIn z env i st)
    else st

/-- Lines 174-186 with the start date in a zone. -/
def loopEnvIn (z : Zone) (req : TrxRequest) (res : List TransactionReport) : LoopEnv :=
  { start := req.StartDate
    startEndDay := (z.EndOfMonth req.StartDate).Day
    endYear := req.EndDate.Year
    endMonth := req.EndDate.Month
    endLocation := req.EndDate.Location
    days := totalDays req.StartDate req.EndDate
    prevPage := wrap64 ((req.Page - 1) * req.Limit)
    nextPage := wrap64 (req.Page * req.Limit)
    res := res }

/-- Lines 188-191 with the start date in a zone. -/
def initStateIn (z : Zone) (req : TrxRequest) : LoopState :=
  { day := (z.BeginningOfMonth req.StartDate).Day, skip := 0, data := [] }

/-- `Transaction.Reporting` with the clock in a zone; `clock` is the instant of `time.Now()`.
With a valid range the clock is not read and the dates of the request, which carry their own
locations, are used as in `Reporting`; otherwise the range and the rows are built in the
zone. -/
def ReportingIn (z : Zone) (repo : TransactionRepository) (clock : Int) (req : TrxRequest) :
    TrxRequest × Except Error TrxResponse :=
  if (normalize req).IsValidRangeDate then Reporting repo (z.instant clock) req
  else
    let req := resolveRangeIn z clock (normalize req)
    match repo.Reporting (reportingFilter req) with
    | .error err => (req, .error err)
    | .ok res =>
      let days := totalDays req.StartDate req.EndDate
      let data := (dayLoopIn z (loopEnvIn z req res) days.toNat 1 (initStateIn z req)).data
      let totalPage := reportingTotalPage days req.Limit
      let link := buildLink "http://localhost:3000/reporting" req.OutletID req.Limit req.Page
        (decide (totalPage > 1))
      (req, .ok { Pagination := ⟨req.Limit, req.Page, totalPage⟩, Link := link, Data := data })

/-- The wall time of the first midnight of the month of the clock, as the seconds it would have
in UTC. -/
def monthStartIn (z : Zone) (clock : Int) : Int :=
  (Date (z.instant clock).Year (z.instant clock).Month 1 0 0 0 UTC).sec

/-- The number of days of the month of the clock. -/
def monthDaysIn (z : Zone) (clock : Int) : Int :=
  lastDayOfMonth (z.instant clock).Year (z.instant clock).Month

/-- The zone America/New_York around 2024: UTC-5, UTC-4 from 2024-03-10 07:00 UTC and UTC-5
again from 2024-11-03 06:00 UTC. -/
def newYork2024 : Zone :=
  ⟨-18000, [((Date 2024 3 10 7 0 0 UTC).sec, -14400), ((Date 2024 11 3 6 0 0 UTC).sec, -18000)]⟩

/-- The zone without clock changes of a fixed offset. -/
def fixedZone (offset : Int) : Zone := ⟨offset, []⟩

/-! # Theorems -/

/-! ## The calendar model -/

theorem isLeap_iff (y : Int) : isLeap y = true ↔ (y % 4 = 0 ∧ (y % 100 ≠ 0 ∨ y % 400 = 0)) := by
  simp [isLeap]

theorem yearDay_cycles (a b c e yd : Int) (hb : 0 ≤ b ∧ b ≤ 3) (hc : 0 ≤ c ∧ c ≤ 24)
    (he : 0 ≤ e ∧ e ≤ 3) (hyd : 0 ≤ yd)
    (h : yd ≤ 364 ∨ (yd = 365 ∧ e = 3 ∧ (c < 24 ∨ b = 3))) :
    yearDay (146097 * a + 36524 * b + 1461 * c + 365 * e + yd)
      = (1 + 400 * a + 100 * b + 4 * c + e, yd) := by
  have h1 : (146097 * a + 36524 * b + 1461 * c + 365 * e + yd) / 146097 = a := by omega
  have h2 : (146097 * a + 36524 * b + 1461 * c + 365 * e + yd) % 146097
      = 36524 * b + 1461 * c + 365 * e + yd := by omega
  simp only [yearDay, h1, h2]
  by_cases hfull : 1461 * c + 365 * e + yd = 36524
  · have hc24 : c = 24 := by omega
    have he3 : e = 3 := by omega
    have hy : yd = 365 := by omega
    have hb3 : b = 3 := by omega
    subst hc24 he3 hy hb3
    norm_num
  · have h3 : (36524 * b + 1461 * c + 365 * e + yd) / 36524 = b := by omega
    have h4 : b / 4 = 0 := by omega
    simp only [h3, h4, sub_zero]
    have h5 : (36524 * b + 1461 * c + 365 * e + yd - 36524 * b) = 1461 * c + 365 * e + yd := by ring
    simp only [h5]
    have h6 : (1461 * c + 365 * e + yd) / 1461 = c := by omega
    simp only [h6]
    have h7 : 1461 * c + 365 * e + yd - 1461 * c = 365 * e + yd := by ring
    simp only [h7]
    by_cases hy : yd = 365
    · have he3 : e = 3 := by omega
      subst hy he3
      norm_num
    · have h8 : (365 * e + yd) / 365 = e := by omega
      have h9 : e / 4 = 0 := by omega
      simp only [h8, h9, sub_zero]
      refine Prod.ext ?_ ?_ <;> omega

theorem daysSinceEpoch_cycles (y : Int) :
    ∃ a b c e : Int, (0 ≤ b ∧ b ≤ 3) ∧ (0 ≤ c ∧ c ≤ 24) ∧ (0 ≤ e ∧ e ≤ 3) ∧
      y = 1 + 400 * a + 100 * b + 4 * c + e ∧
      daysSinceEpoch y = 146097 * a + 36524 * b + 1461 * c + 365 * e := by
  refine ⟨(y - 1) / 400, (y - 1 - 400 * ((y - 1) / 400)) / 100,
    ((y - 1 - 400 * ((y - 1) / 400)) - 100 * ((y - 1 - 400 * ((y - 1) / 400)) / 100)) / 4,
    ((y - 1 - 400 * ((y - 1) / 400)) - 100 * ((y - 1 - 400 * ((y - 1) / 400)) / 100))
      - 4 * (((y - 1 - 400 * ((y - 1) / 400)) - 100 * ((y - 1 - 400 * ((y - 1) / 400)) / 100)) / 4),
    ?_, ?_, ?_, ?_, ?_⟩
  · omega
  · omega
  · omega
  · omega
  · simp only [daysSinceEpoch]

theorem leap_cycles (a b c e : Int) (hb : 0 ≤ b ∧ b ≤ 3) (hc : 0 ≤ c ∧ c ≤ 24)
    (he : 0 ≤ e ∧ e ≤ 3) :
    isLeap (1 + 400 * a + 100 * b + 4 * c + e) = true ↔ (e = 3 ∧ (c < 24 ∨ b = 3)) := by
  rw [isLeap_iff]
  have hm4 : (1 + 400 * a + 100 * b + 4 * c + e) % 4 = 0 ↔ e = 3 := by omega
  have hm100 : (1 + 400 * a + 100 * b + 4 * c + e) % 100 = 0 ↔ (c = 24 ∧ e = 3) := by omega
  have hm400 : (1 + 400 * a + 100 * b + 4 * c + e) % 400 = 0 ↔ (b = 3 ∧ c = 24 ∧ e = 3) := by
    omega
  rw [Ne, hm4, hm100, hm400]
  omega

theorem yearDay_compose (y yd : Int) (h0 : 0 ≤ yd) (h1 : yd < yearLen y) :
    yearDay (daysSinceEpoch y + yd) = (y, yd) := by
  obtain ⟨a, b, c, e, hb, hc, he, hy, hd⟩ := daysSinceEpoch_cycles y
  rw [hd]
  clear hd
  subst hy
  have hl := leap_cycles a b c e hb hc he
  apply yearDay_cycles a b c e yd hb hc he h0
  unfold yearLen at h1
  by_cases hleap : isLeap (1 + 400 * a + 100 * b + 4 * c + e) = true
  · have hle := hl.1 hleap
    by_cases hyd : yd ≤ 364
    · exact Or.inl hyd
    · exact Or.inr ⟨by omega, hle⟩
  · rw [if_neg hleap] at h1
    left; omega

theorem monthDay_eq_aux (y yd : Int) : monthDay y yd = monthDayAux (isLeap y) yd := rfl

theorem lastDayOfMonth_eq_aux (y m : Int) : lastDayOfMonth y m = lastDayAux (isLeap y) m := by
  unfold lastDayOfMonth lastDayAux
  cases isLeap y <;> simp

theorem monthDayAux_table : ∀ leap : Bool, ∀ n : Nat, n < 366 → (leap = true ∨ n < 365) →
    1 ≤ (monthDayAux leap n).1 ∧ (monthDayAux leap n).1 ≤ 12 ∧ 1 ≤ (monthDayAux leap n).2 ∧
    (monthDayAux leap n).2 ≤ lastDayAux leap (monthDayAux leap n).1 ∧
    ydayAux leap (monthDayAux leap n).1 (monthDayAux leap n).2 = n := by
  decide!

theorem ydayAux_table : ∀ leap : Bool, ∀ m : Nat, m < 13 → ∀ d : Nat, d < 32 →
    (1 ≤ m ∧ 1 ≤ d ∧ (d : Int) ≤ lastDayAux leap m) →
    0 ≤ ydayAux leap m d ∧ ydayAux leap m d < (if leap then 366 else 365) ∧
    monthDayAux leap (ydayAux leap m d) = ((m : Int), (d : Int)) := by
  decide!

theorem ydayAux_next_table : ∀ leap : Bool, ∀ m : Nat, m < 12 → 1 ≤ m →
    ydayAux leap ((m : Int) + 1) 1 = ydayAux leap m (lastDayAux leap m) + 1 := by
  decide!

theorem lastDayAux_range : ∀ leap : Bool, ∀ m : Nat, m < 13 →
    28 ≤ lastDayAux leap m ∧ lastDayAux leap m ≤ 31 := by
  decide!

theorem monthDayAux_spec (leap : Bool) (yd : Int) (h0 : 0 ≤ yd)
    (h1 : yd < (if leap then 366 else 365)) :
    1 ≤ (monthDayAux leap yd).1 ∧ (monthDayAux leap yd).1 ≤ 12 ∧ 1 ≤ (monthDayAux leap yd).2 ∧
    (monthDayAux leap yd).2 ≤ lastDayAux leap (monthDayAux leap yd).1 ∧
    ydayAux leap (monthDayAux leap yd).1 (monthDayAux leap yd).2 = yd := by
  have h := monthDayAux_table leap yd.toNat
  have hc : ((yd.toNat : Nat) : Int) = yd := Int.toNat_of_nonneg h0
  rw [hc] at h
  apply h
  · cases leap <;> simp at h1 <;> omega
  · cases leap
    · right; simp at h1; omega
    · left; rfl

theorem ydayAux_spec (leap : Bool) (m d : Int) (hm : 1 ≤ m ∧ m ≤ 12)
    (hd : 1 ≤ d ∧ d ≤ lastDayAux leap m) :
    0 ≤ ydayAux leap m d ∧ ydayAux leap m d < (if leap then 366 else 365) ∧
    monthDayAux leap (ydayAux leap m d) = (m, d) := by
  have hr := lastDayAux_range leap m.toNat
  have hmc : ((m.toNat : Nat) : Int) = m := Int.toNat_of_nonneg (by omega)
  have hdc : ((d.toNat : Nat) : Int) = d := Int.toNat_of_nonneg (by omega)
  rw [hmc] at hr
  have hr := hr (by omega)
  have h := ydayAux_table leap m.toNat (by omega) d.toNat (by omega)
  rw [hmc, hdc] at h
  exact h ⟨by omega, by omega, hd.2⟩

theorem yearDay_digits (d : Int) : ∃ a b c e yd : Int, (0 ≤ b ∧ b ≤ 3) ∧ (0 ≤ c ∧ c ≤ 24) ∧
    (0 ≤ e ∧ e ≤ 3) ∧ 0 ≤ yd ∧ (yd ≤ 364 ∨ (yd = 365 ∧ e = 3 ∧ (c < 24 ∨ b = 3))) ∧
    d = 146097 * a + 36524 * b + 1461 * c + 365 * e + yd := by
  obtain ⟨a, r0, hr0, hd⟩ : ∃ a r0 : Int, (0 ≤ r0 ∧ r0 < 146097) ∧ d = 146097 * a + r0 :=
    ⟨d / 146097, d % 146097, by omega, by omega⟩
  obtain ⟨b, r1, hb, hr1, h1⟩ : ∃ b r1 : Int, (0 ≤ b ∧ b ≤ 3) ∧
      (0 ≤ r1 ∧ r1 ≤ 36524 ∧ (r1 = 36524 → b = 3)) ∧ r0 = 36524 * b + r1 := by
    by_cases h : r0 = 146096
    · exact ⟨3, 36524, by omega, by omega, by omega⟩
    · exact ⟨r0 / 36524, r0 % 36524, by omega, by omega, by omega⟩
  obtain ⟨c, r2, hc, hr2, h2⟩ : ∃ c r2 : Int, (0 ≤ c ∧ c ≤ 24) ∧
      (0 ≤ r2 ∧ r2 ≤ 1460 ∧ (c = 24 → r2 = 1460 → r1 = 36524)) ∧ r1 = 1461 * c + r2 :=
    ⟨r1 / 1461, r1 % 1461, by omega, by omega, by omega⟩
  obtain ⟨e, yd, he, hyd, hy, h3⟩ : ∃ e yd : Int, (0 ≤ e ∧ e ≤ 3) ∧ 0 ≤ yd ∧
      (yd ≤ 364 ∨ (yd = 365 ∧ e = 3 ∧ r2 = 1460)) ∧ r2 = 365 * e + yd := by
    by_cases h : r2 = 1460
    · exact ⟨3, 365, by omega, by omega, Or.inr ⟨rfl, rfl, h⟩, by omega⟩
    · exact ⟨r2 / 365, r2 % 365, by omega, by omega, Or.inl (by omega), by omega⟩
  refine ⟨a, b, c, e, yd, hb, hc, he, hyd, ?_, by omega⟩
  rcases hy with hy | ⟨hy1, hy2, hy3⟩
  · exact Or.inl hy
  · refine Or.inr ⟨hy1, hy2, ?_⟩
    by_cases hc24 : c = 24
    · exact Or.inr (hr1.2.2 (hr2.2.2 hc24 hy3))
    · exact Or.inl (by omega)

theorem daysSinceEpoch_digits (a b c e : Int) (hb : 0 ≤ b ∧ b ≤ 3) (hc : 0 ≤ c ∧ c ≤ 24)
    (he : 0 ≤ e ∧ e ≤ 3) :
    daysSinceEpoch (1 + 400 * a + 100 * b + 4 * c + e)
      = 146097 * a + 36524 * b + 1461 * c + 365 * e := by
  obtain ⟨a', b', c', e', hb', hc', he', hy, hd⟩ :=
    daysSinceEpoch_cycles (1 + 400 * a + 100 * b + 4 * c + e)
  rw [hd]
  have ha : a = a' := by omega
  subst ha
  have hbb : b = b' := by omega
  subst hbb
  have hcc : c = c' := by omega
  subst hcc
  have hee : e = e' := by omega
  subst hee
  rfl

theorem yearDay_spec (d : Int) : 0 ≤ (yearDay d).2 ∧ (yearDay d).2 < yearLen (yearDay d).1 ∧
    daysSinceEpoch (yearDay d).1 + (yearDay d).2 = d := by
  obtain ⟨a, b, c, e, yd, hb, hc, he, hyd, hl, hd⟩ := yearDay_digits d
  have h := yearDay_cycles a b c e yd hb hc he hyd hl
  rw [← hd] at h
  rw [h]
  simp only
  refine ⟨hyd, ?_, ?_⟩
  · unfold yearLen
    by_cases hleap : isLeap (1 + 400 * a + 100 * b + 4 * c + e) = true
    · rw [if_pos hleap]
      rcases hl with hl | hl <;> omega
    · rw [if_neg hleap]
      rcases hl with hl | ⟨h1, h2, h3⟩
      · omega
      · exact absurd ((leap_cycles a b c e hb hc he).2 ⟨h2, h3⟩) hleap
  · rw [daysSinceEpoch_digits a b c e hb hc he, hd]

theorem yearLen_eq (y : Int) : yearLen y = if isLeap y then 366 else 365 := rfl

theorem monthDay_spec (d : Int) :
    1 ≤ (monthDay (yearDay d).1 (yearDay d).2).1 ∧ (monthDay (yearDay d).1 (yearDay d).2).1 ≤ 12 ∧
    1 ≤ (monthDay (yearDay d).1 (yearDay d).2).2 ∧
    (monthDay (yearDay d).1 (yearDay d).2).2
      ≤ lastDayOfMonth (yearDay d).1 (monthDay (yearDay d).1 (yearDay d).2).1 := by
  obtain ⟨h0, h1, _⟩ := yearDay_spec d
  rw [monthDay_eq_aux, lastDayOfMonth_eq_aux]
  obtain ⟨a1, a2, a3, a4, _⟩ := monthDayAux_spec (isLeap (yearDay d).1) (yearDay d).2 h0 h1
  exact ⟨a1, a2, a3, a4⟩

theorem Time.Month_range (t : Time) : 1 ≤ t.Month ∧ t.Month ≤ 12 :=
  ⟨(monthDay_spec t.absDays).1, (monthDay_spec t.absDays).2.1⟩

theorem Time.Day_range (t : Time) : 1 ≤ t.Day ∧ t.Day ≤ lastDayOfMonth t.Year t.Month :=
  ⟨(monthDay_spec t.absDays).2.2.1, (monthDay_spec t.absDays).2.2.2⟩

theorem Date_absDays (y m d h mi s : Int) (loc : Location) (hm : 1 ≤ m ∧ m ≤ 12)
    (hs : 0 ≤ h * 3600 + mi * 60 + s ∧ h * 3600 + mi * 60 + s < 86400) :
    (Date y m d h mi s loc).absDays = daysSinceEpoch y + ydayAux (isLeap y) m d ∧
    (Date y m d h mi s loc).secOfDay = h * 3600 + mi * 60 + s := by
  have h1 : (m - 1) / 12 = 0 := by omega
  have h2 : (m - 1) % 12 = m - 1 := by omega
  have h3 : (m - 1 + 1 ≥ 3) = (m ≥ 3) := by
    apply propext; constructor <;> intro h <;> omega
  simp only [Date, Time.absDays, Time.secOfDay, h1, h2, add_zero, ydayAux, secondsPerDay,
    Bool.and_eq_true, decide_eq_true_eq, h3]
  split <;> constructor <;> omega

theorem fields_of_absDays (t : Time) (y m d : Int) (hm : 1 ≤ m ∧ m ≤ 12)
    (hd : 1 ≤ d ∧ d ≤ lastDayOfMonth y m)
    (h : t.absDays = daysSinceEpoch y + ydayAux (isLeap y) m d) :
    t.Year = y ∧ t.Month = m ∧ t.Day = d := by
  rw [lastDayOfMonth_eq_aux] at hd
  obtain ⟨h0, h1, h2⟩ := ydayAux_spec (isLeap y) m d hm hd
  have hyd := yearDay_compose y (ydayAux (isLeap y) m d) h0 h1
  simp only [Time.Year, Time.Month, Time.Day, h, hyd, monthDay_eq_aux, h2, and_self]

theorem Date_fields (y m d h mi s : Int) (loc : Location) (hm : 1 ≤ m ∧ m ≤ 12)
    (hd : 1 ≤ d ∧ d ≤ lastDayOfMonth y m)
    (hs : 0 ≤ h * 3600 + mi * 60 + s ∧ h * 3600 + mi * 60 + s < 86400) :
    (Date y m d h mi s loc).Year = y ∧ (Date y m d h mi s loc).Month = m ∧
    (Date y m d h mi s loc).Day = d :=
  fields_of_absDays _ y m d hm hd (Date_absDays y m d h mi s loc hm hs).1

theorem Date_loc (y m d h mi s : Int) (loc : Location) : (Date y m d h mi s loc).loc = loc := rfl

theorem Date_sec (y m d h mi s : Int) (loc : Location) (hm : 1 ≤ m ∧ m ≤ 12) :
    (Date y m d h mi s loc).sec
      = (daysSinceEpoch y + ydayAux (isLeap y) m d) * 86400 + (h * 3600 + mi * 60 + s)
        - loc.offset := by
  have h1 : (m - 1) / 12 = 0 := by omega
  have h2 : (m - 1) % 12 = m - 1 := by omega
  have h3 : (m - 1 + 1 ≥ 3) = (m ≥ 3) := by
    apply propext; constructor <;> intro h <;> omega
  simp only [Date, h1, h2, add_zero, ydayAux, secondsPerDay,
    Bool.and_eq_true, decide_eq_true_eq, h3]
  split <;> ring

theorem daysSinceEpoch_succ_digits (a b c e : Int) (hb : 0 ≤ b ∧ b ≤ 3) (hc : 0 ≤ c ∧ c ≤ 24)
    (he : 0 ≤ e ∧ e ≤ 3) :
    daysSinceEpoch (1 + 400 * a + 100 * b + 4 * c + e + 1)
      = 146097 * a + 36524 * b + 1461 * c + 365 * e
        + (if e = 3 ∧ (c < 24 ∨ b = 3) then 366 else 365) := by
  by_cases he3 : e = 3
  · by_cases hc24 : c = 24
    · by_cases hb3 : b = 3
      · have hy1 : 1 + 400 * a + 100 * b + 4 * c + e + 1
            = 1 + 400 * (a + 1) + 100 * 0 + 4 * 0 + 0 := by omega
        rw [hy1, daysSinceEpoch_digits (a + 1) 0 0 0 (by omega) (by omega) (by omega),
          if_pos ⟨he3, Or.inr hb3⟩]
        omega
      · have hy1 : 1 + 400 * a + 100 * b + 4 * c + e + 1
            = 1 + 400 * a + 100 * (b + 1) + 4 * 0 + 0 := by omega
        rw [hy1, daysSinceEpoch_digits a (b + 1) 0 0 (by omega) (by omega) (by omega),
          if_neg (by omega)]
        omega
    · have hy1 : 1 + 400 * a + 100 * b + 4 * c + e + 1
          = 1 + 400 * a + 100 * b + 4 * (c + 1) + 0 := by omega
      rw [hy1, daysSinceEpoch_digits a b (c + 1) 0 (by omega) (by omega) (by omega),
        if_pos ⟨he3, Or.inl (by omega)⟩]
      omega
  · have hy1 : 1 + 400 * a + 100 * b + 4 * c + e + 1
        = 1 + 400 * a + 100 * b + 4 * c + (e + 1) := by omega
    rw [hy1, daysSinceEpoch_digits a b c (e + 1) (by omega) (by omega) (by omega),
      if_neg (fun h => he3 h.1)]
    omega

theorem daysSinceEpoch_succ (y : Int) :
    daysSinceEpoch (y + 1) = daysSinceEpoch y + yearLen y := by
  obtain ⟨a, b, c, e, hb, hc, he, hy, hd⟩ := daysSinceEpoch_cycles y
  have hl := leap_cycles a b c e hb hc he
  rw [hd]
  clear hd
  subst hy
  rw [daysSinceEpoch_succ_digits a b c e hb hc he]
  unfold yearLen
  by_cases h : e = 3 ∧ (c < 24 ∨ b = 3)
  · rw [if_pos h, if_pos (hl.2 h)]
  · rw [if_neg h, if_neg (fun h1 => h (hl.1 h1))]

theorem Date_next_month_sec (y m : Int) (loc : Location) (hm : 1 ≤ m ∧ m ≤ 12) :
    (Date y (m + 1) 1 0 0 0 loc).sec
      = (daysSinceEpoch y + ydayAux (isLeap y) m (lastDayAux (isLeap y) m) + 1) * 86400
        - loc.offset := by
  by_cases h12 : m = 12
  · subst h12
    have h1 : ((12 : Int) + 1 - 1) / 12 = 1 := by decide
    have h2 : ((12 : Int) + 1 - 1) % 12 = 0 := by decide
    simp only [Date, h1, h2, secondsPerDay]
    rw [daysSinceEpoch_succ]
    unfold yearLen
    cases isLeap y <;> simp [daysBefore, isLeap, ydayAux, lastDayAux] <;> ring_nf
  · rw [Date_sec y (m + 1) 1 0 0 0 loc (by omega)]
    have ht := ydayAux_next_table (isLeap y) m.toNat (by omega) (by omega)
    have hmc : ((m.toNat : Nat) : Int) = m := Int.toNat_of_nonneg (by omega)
    rw [hmc] at ht
    rw [ht]
    ring

theorem BeginningOfMonth_fields (t : Time) :
    (BeginningOfMonth t).Year = t.Year ∧ (BeginningOfMonth t).Month = t.Month ∧
    (BeginningOfMonth t).Day = 1 := by
  have hm := t.Month_range
  have hr := lastDayAux_range (isLeap t.Year) t.Month.toNat (by omega)
  have hmc : ((t.Month.toNat : Nat) : Int) = t.Month := Int.toNat_of_nonneg (by omega)
  rw [hmc] at hr
  apply Date_fields _ _ _ _ _ _ _ hm _ (by omega)
  rw [lastDayOfMonth_eq_aux]
  omega

theorem EndOfMonth_fields (t : Time) :
    (EndOfMonth t).Year = t.Year ∧ (EndOfMonth t).Month = t.Month ∧
    (EndOfMonth t).Day = lastDayOfMonth t.Year t.Month := by
  have hm := t.Month_range
  obtain ⟨hy, hmo, hd⟩ := BeginningOfMonth_fields t
  have hr := lastDayAux_range (isLeap t.Year) t.Month.toNat (by omega)
  have hmc : ((t.Month.toNat : Nat) : Int) = t.Month := Int.toNat_of_nonneg (by omega)
  rw [hmc] at hr
  have hs : (BeginningOfMonth t).secOfDay = 0 := by
    have := (Date_absDays t.Year t.Month 1 0 0 0 t.loc hm (by omega)).2
    simpa [BeginningOfMonth] using this
  have hloc : (BeginningOfMonth t).loc = t.loc := rfl
  apply fields_of_absDays _ _ _ _ hm
  · rw [lastDayOfMonth_eq_aux]; omega
  · rw [lastDayOfMonth_eq_aux]
    simp only [EndOfMonth, Time.AddDate, Time.AddSeconds, Time.absDays, hy, hmo, hd, hs, hloc,
      add_zero, secondsPerDay, Date_loc]
    rw [Date_next_month_sec t.Year t.Month t.loc hm]
    omega

/-! ## The page window -/

/-- C1: for the range 2024-01-01 to 2024-01-31 (30 days) and limit 10, `Reporting` returns 11
rows for page 2 and 1 row for page 4, where the specification's count
`max(0, min(limit, totalDays - (page - 1) * limit))` is 10 and 0: the loop skips only the
ordinals below `(page - 1) * limit`, so the ordinal `(page - 1) * limit` itself is visited. -/
theorem reporting_row_count_off_by_one :
    (rangeRequest (jan2024 1) (jan2024 31) 10 2).IsValidRangeDate = true ∧
    totalDays (jan2024 1) (jan2024 31) = 30 ∧
    (dataOf (Reporting (fixedRepo []) (jan2024 1) (rangeRequest (jan2024 1) (jan2024 31) 10 2))).map
      List.length = some 11 ∧
    specRowCount 10 30 2 = 10 ∧
    (dataOf (Reporting (fixedRepo []) (jan2024 1) (rangeRequest (jan2024 1) (jan2024 31) 10 4))).map
      List.length = some 1 ∧
    specRowCount 10 30 4 = 0 := by
  decide

/-- C2: for the range 2024-01-01 to 2024-01-31 and limit 10, the rows of page 2 are the
elements 10 to 20 of the full dense series (the result for page 1 and limit 30), and not the
elements 11 to 20 that the slice of the specification holds. -/
theorem reporting_window_not_slice :
    ∃ full page2 : List TransactionReport,
      dataOf (Reporting (fixedRepo []) (jan2024 1) (rangeRequest (jan2024 1) (jan2024 31) 30 1))
        = some full ∧
      dataOf (Reporting (fixedRepo []) (jan2024 1) (rangeRequest (jan2024 1) (jan2024 31) 10 2))
        = some page2 ∧
      full.length = 30 ∧
      page2 = (full.drop 9).take 11 ∧
      page2 ≠ specSlice full 10 30 2 := by
  refine ⟨_, _, rfl, rfl, ?_, ?_, ?_⟩ <;> decide!

/-- C3: for the range 2024-01-15 to 2024-01-20 the rows of page 1 are dated January 1 to
January 5, where the specification dates them January 15 to January 19: the day counter starts
from the day of the beginning of the month, which is 1, and not from the day of the start
date. -/
theorem reporting_dates_start_at_first_of_month :
    (dataOf (Reporting (fixedRepo []) (jan2024 1)
        (rangeRequest (jan2024 15) (jan2024 20) 10 1))).map (List.map civil)
      = some [(2024, 1, 1), (2024, 1, 2), (2024, 1, 3), (2024, 1, 4), (2024, 1, 5)] ∧
    ([1, 2, 3, 4, 5].map fun i => civil ⟨specRowDate (jan2024 15) (jan2024 20) i, "0"⟩)
      = [(2024, 1, 15), (2024, 1, 16), (2024, 1, 17), (2024, 1, 18), (2024, 1, 19)] := by
  decide

/-- C9: for the range 2024-01-01 to 2024-01-31, limit 10, page 2 and aggregates of 1, 2, 3, 12
and 13 January, the cursor is 3 after the day 12 (matched at index 3) and 1 after the day 13
(matched at index 4): it moved backward, and the search after the match at index 4 starts at
index 1.  The loop stores the index of the match within `res[skip:]`, not within `res`. -/
theorem reporting_cursor_moves_backward :
    cursorAfter (rangeRequest (jan2024 1) (jan2024 31) 10 2) januaryAggregates 11 = 0 ∧
    cursorAfter (rangeRequest (jan2024 1) (jan2024 31) 10 2) januaryAggregates 12 = 3 ∧
    cursorAfter (rangeRequest (jan2024 1) (jan2024 31) 10 2) januaryAggregates 13 = 1 ∧
    (dataOf (Reporting (fixedRepo januaryAggregates) (jan2024 1)
        (rangeRequest (jan2024 1) (jan2024 31) 10 2))).map (List.map fun r => (r.Date.Day, r.Omzet))
      = some [(10, "0"), (11, "0"), (12, "1200"), (13, "1300"), (14, "0"), (15, "0"), (16, "0"),
          (17, "0"), (18, "0"), (19, "0"), (20, "0")] := by
  decide!

/-! ## Requests and the collaborator -/

theorem normalize_dates (req : TrxRequest) :
    (normalize req).StartDate = req.StartDate ∧ (normalize req).EndDate = req.EndDate ∧
    (normalize req).OutletID = req.OutletID ∧ (normalize req).MerchantID = req.MerchantID ∧
    (normalize req).IsValidRangeDate = req.IsValidRangeDate := by
  by_cases h1 : req.Limit ≤ 0 <;> by_cases h2 : req.Page ≤ 0 <;>
    simp [normalize, h1, h2, TrxRequest.IsValidRangeDate]

theorem normalize_limit_page (req : TrxRequest) :
    (normalize req).Limit = (if req.Limit ≤ 0 then 10 else req.Limit) ∧
    (normalize req).Page = (if req.Page ≤ 0 then 1 else req.Page) := by
  by_cases h1 : req.Limit ≤ 0 <;> by_cases h2 : req.Page ≤ 0 <;> simp [normalize, h1, h2]

theorem resolveRange_fields (clock : Time) (req : TrxRequest) :
    (resolveRange clock req).Limit = req.Limit ∧ (resolveRange clock req).Page = req.Page ∧
    (resolveRange clock req).OutletID = req.OutletID ∧
    (resolveRange clock req).MerchantID = req.MerchantID := by
  by_cases h : req.IsValidRangeDate = true <;> simp [resolveRange, h]

theorem resolveRange_valid (clock : Time) (req : TrxRequest) (h : req.IsValidRangeDate = true) :
    resolveRange clock req = req := by
  simp [resolveRange, h]

theorem resolve_valid (clock : Time) (req : TrxRequest) (h : req.IsValidRangeDate = true) :
    resolve clock req = normalize req := by
  unfold resolve
  exact resolveRange_valid clock _ ((normalize_dates req).2.2.2.2.trans h)

theorem resolve_limit_page (clock : Time) (req : TrxRequest) :
    (resolve clock req).Limit = (if req.Limit ≤ 0 then 10 else req.Limit) ∧
    (resolve clock req).Page = (if req.Page ≤ 0 then 1 else req.Page) ∧
    (resolve clock req).OutletID = req.OutletID := by
  unfold resolve
  obtain ⟨h1, h2, h3, _⟩ := resolveRange_fields clock (normalize req)
  rw [h1, h2, h3]
  exact ⟨(normalize_limit_page req).1, (normalize_limit_page req).2, (normalize_dates req).2.2.1⟩

/-- C10: when the call of the storage collaborator returns an error, `Report` and `Reporting`
return exactly that error and no response; when it returns rows they return a response and no
error. -/
theorem collaborator_error_propagates (repo : TransactionRepository) (clock : Time)
    (req : TrxRequest) :
    (∀ err, repo.Report (reportFilter clock (normalize req)) = .error err →
      Report repo clock req = .error err) ∧
    (∀ v, repo.Report (reportFilter clock (normalize req)) = .ok v →
      ∃ resp, Report repo clock req = .ok resp) ∧
    (∀ err, repo.Reporting (reportingFilter (resolve clock req)) = .error err →
      (Reporting repo clock req).2 = .error err) ∧
    (∀ res, repo.Reporting (reportingFilter (resolve clock req)) = .ok res →
      ∃ resp, (Reporting repo clock req).2 = .ok resp) := by
  refine ⟨?_, ?_, ?_, ?_⟩
  · intro err h
    simp only [Report, h]
  · intro v h
    simp only [Report, h]
    exact ⟨_, rfl⟩
  · intro err h
    simp only [Reporting, h]
  · intro res h
    simp only [Reporting, h]
    exact ⟨_, rfl⟩

theorem collaborator_error_propagates_witness :
    Report (failingRepo "storage down") (jan2024 1) (rangeRequest (jan2024 1) (jan2024 31) 10 1)
      = .error "storage down" ∧
    (Reporting (failingRepo "storage down") (jan2024 1)
      (rangeRequest (jan2024 1) (jan2024 31) 10 1)).2 = .error "storage down" :=
  ⟨(collaborator_error_propagates (failingRepo "storage down") (jan2024 1)
      (rangeRequest (jan2024 1) (jan2024 31) 10 1)).1 "storage down" rfl,
   (collaborator_error_propagates (failingRepo "storage down") (jan2024 1)
      (rangeRequest (jan2024 1) (jan2024 31) 10 1)).2.2.1 "storage down" rfl⟩

/-! ## Links and the page count -/

theorem log2Floor_spec (fuel n : Nat) (h : n ≤ fuel) (hn : n ≠ 0) :
    2 ^ log2Floor fuel n ≤ n ∧ n < 2 ^ (log2Floor fuel n + 1) := by
  induction fuel generalizing n with
  | zero => omega
  | succ f ih =>
    simp only [log2Floor]
    by_cases h2 : 2 ≤ n
    · rw [if_pos h2]
      obtain ⟨h3, h4⟩ := ih (n / 2) (by omega) (by omega)
      rw [pow_succ, pow_succ]
      rw [pow_succ] at h4
      omega
    · rw [if_neg h2]
      have : n = 1 := by omega
      subst this
      simp

theorem ilog2_spec (n : Nat) (hn : n ≠ 0) : 2 ^ ilog2 n ≤ n ∧ n < 2 ^ (ilog2 n + 1) :=
  log2Floor_spec n n (le_refl _) hn

theorem ilog2_lt (n k : Nat) (hn : n ≠ 0) (h : n < 2 ^ k) : ilog2 n < k := by
  by_contra hc
  have h1 := (ilog2_spec n hn).1
  have h2 : 2 ^ k ≤ 2 ^ ilog2 n := Nat.pow_le_pow_right (by norm_num) (by omega)
  omega

theorem le_ilog2 (n k : Nat) (hn : n ≠ 0) (h : 2 ^ k ≤ n) : k ≤ ilog2 n := by
  by_contra hc
  have h1 := (ilog2_spec n hn).2
  have h2 : 2 ^ (ilog2 n + 1) ≤ 2 ^ k := Nat.pow_le_pow_right (by norm_num) (by omega)
  omega

theorem roundHalfEven_ge (n d : Nat) : n / d ≤ roundHalfEven n d := by
  unfold roundHalfEven
  simp only
  split
  · exact le_refl _
  · split
    · omega
    · split <;> omega

theorem roundHalfEven_le (n d : Nat) (hd : 0 < d) :
    2 * (d * roundHalfEven n d) ≤ 2 * n + d := by
  have hdm := Nat.div_add_mod n d
  have hr := Nat.mod_lt n hd
  unfold roundHalfEven
  simp only
  generalize n / d = q at *
  generalize n % d = r at *
  split
  · nlinarith
  · split
    · rw [Nat.mul_add]; omega
    · split
      · nlinarith
      · rw [Nat.mul_add]; omega

theorem roundHalfEven_one (n : Nat) : roundHalfEven n 1 = n := by
  have h1 : n % 1 = 0 := Nat.mod_one n
  simp [roundHalfEven, h1]

theorem floorFloatQuot_exact (a b : Nat) (ha : 0 < a) (ha53 : a < 2 ^ 53) (hb : 0 < b) :
    floorFloatQuot a b = a / b := by
  have hL : ilog2 a < 53 := ilog2_lt a 53 (by omega) ha53
  unfold floorFloatQuot
  by_cases h1 : 2 ^ 52 * b ≤ a
  · rw [if_pos h1]
    have hb1 : b = 1 := by omega
    subst hb1
    have e1 : ilog2 a - ilog2 1 - 52 = 0 := by omega
    simp only [e1]
    simp [roundHalfEven_one]
  · rw [if_neg h1]
    simp only
    generalize hs : (if 2 ^ 52 * b ≤ a * 2 ^ (53 + ilog2 b - ilog2 a - 1)
      then 53 + ilog2 b - ilog2 a - 1 else 53 + ilog2 b - ilog2 a) = s
    have hP : 2 ^ 52 * b ≤ a * 2 ^ s := by
      by_cases ht : 2 ^ 52 * b ≤ a * 2 ^ (53 + ilog2 b - ilog2 a - 1)
      · rw [if_pos ht] at hs
        rw [← hs]
        exact ht
      · rw [if_neg ht] at hs
        rw [← hs]
        have h3 := (ilog2_spec a (by omega)).1
        have h4 := (ilog2_spec b (by omega)).2
        have h5 : 2 ^ ilog2 a * 2 ^ (53 + ilog2 b - ilog2 a) = 2 ^ 52 * 2 ^ (ilog2 b + 1) := by
          rw [← pow_add, ← pow_add]
          congr 1
          omega
        calc 2 ^ 52 * b ≤ 2 ^ 52 * 2 ^ (ilog2 b + 1) := Nat.mul_le_mul_left _ h4.le
          _ = 2 ^ ilog2 a * 2 ^ (53 + ilog2 b - ilog2 a) := h5.symm
          _ ≤ a * 2 ^ (53 + ilog2 b - ilog2 a) := Nat.mul_le_mul_right _ h3
    have hPpos : 0 < 2 ^ s := Nat.pow_pos (by norm_num)
    generalize 2 ^ s = P at hP hPpos ⊢
    have hge := roundHalfEven_ge (a * P) b
    have hle := roundHalfEven_le (a * P) b hb
    generalize roundHalfEven (a * P) b = m at hge hle
    have hq1 : a / b * b ≤ a := Nat.div_mul_le_self a b
    have hq2 : a < b * (a / b + 1) := Nat.lt_mul_div_succ a hb
    generalize a / b = q at hq1 hq2 ⊢
    apply Nat.div_eq_of_lt_le
    · have : q * P ≤ a * P / b := by
        rw [Nat.le_div_iff_mul_le hb]
        calc q * P * b = q * b * P := by ring
          _ ≤ a * P := Nat.mul_le_mul_right _ hq1
      omega
    · by_contra hc
      have hc' : (q + 1) * P ≤ m := by omega
      have h6 : 2 * (b * ((q + 1) * P)) ≤ 2 * (a * P) + b :=
        le_trans (Nat.mul_le_mul_left _ (Nat.mul_le_mul_left _ hc')) hle
      have h7 : (a + 1) * P ≤ b * (q + 1) * P := Nat.mul_le_mul_right _ (by omega)
      have h8 : 2 * P ≤ b := by nlinarith
      have h9 : 2 ^ 52 * (2 * P) ≤ a * P := le_trans (Nat.mul_le_mul_left _ h8) hP
      have h10 : a * P < 2 ^ 53 * P := Nat.mul_lt_mul_of_pos_right ha53 hPpos
      omega

theorem float64OfNat_small (n : Nat) (h : n < 2 ^ 53) : float64OfNat n = n := by
  unfold float64OfNat
  rw [if_pos h]

theorem float64OfNat_large (n : Nat) (h : 2 ^ 53 ≤ n) : 2 ^ 53 ≤ float64OfNat n := by
  have hn : n ≠ 0 := by
    intro h0
    subst h0
    simp at h
  have hL := le_ilog2 n 53 hn h
  have h1 := (ilog2_spec n hn).1
  unfold float64OfNat
  rw [if_neg (by omega)]
  simp only
  have hge := roundHalfEven_ge n (2 ^ (ilog2 n - 52))
  have hpos : 0 < 2 ^ (ilog2 n - 52) := Nat.pow_pos (by norm_num)
  have h2 : 2 ^ 52 ≤ n / 2 ^ (ilog2 n - 52) := by
    rw [Nat.le_div_iff_mul_le hpos, ← pow_add]
    have : 52 + (ilog2 n - 52) = ilog2 n := by omega
    rw [this]
    exact h1
  have h3 : 2 ≤ 2 ^ (ilog2 n - 52) := by
    calc 2 = 2 ^ 1 := by norm_num
      _ ≤ 2 ^ (ilog2 n - 52) := Nat.pow_le_pow_right (by norm_num) (by omega)
  calc 2 ^ 53 = 2 ^ 52 * 2 := by norm_num
    _ ≤ roundHalfEven n (2 ^ (ilog2 n - 52)) * 2 ^ (ilog2 n - 52) :=
      Nat.mul_le_mul (le_trans h2 hge) h3

theorem ediv_nonpos_of_nonpos (a b : Int) (ha : a ≤ 0) (hb : 0 < b) : a / b ≤ 0 := by
  rcases lt_or_eq_of_le ha with h | h
  · exact (Int.ediv_neg' h hb).le
  · subst h
    simp

theorem reportTotalPage_exact (count limit : Int) (hc : count < 2 ^ 53) (hl : 0 < limit) :
    reportTotalPage count limit = max 1 (count / limit) ∧
    intOfFloat (reportTotalPage count limit) = max 1 (count / limit) := by
  have key : reportTotalPage count limit = max 1 (count / limit) := by
    unfold reportTotalPage
    by_cases h0 : count ≤ 0
    · rw [if_pos h0]
      have := ediv_nonpos_of_nonpos count limit h0 hl
      omega
    · rw [if_neg h0]
      have hA : count.toNat < 2 ^ 53 := by omega
      have hA0 : 0 < count.toNat := by omega
      have hcA : ((count.toNat : Nat) : Int) = count := Int.toNat_of_nonneg (by omega)
      have hcL : ((limit.toNat : Nat) : Int) = limit := Int.toNat_of_nonneg hl.le
      have hq : ((floorFloatQuot (float64OfNat count.toNat) (float64OfNat limit.toNat) : Nat)
          : Int) = count / limit := by
        rw [float64OfNat_small _ hA]
        by_cases hL : limit.toNat < 2 ^ 53
        · rw [float64OfNat_small _ hL, floorFloatQuot_exact _ _ hA0 hA (by omega),
            Int.natCast_div, hcA, hcL]
        · have hB := float64OfNat_large limit.toNat (by omega)
          rw [floorFloatQuot_exact _ _ hA0 hA (by omega), Nat.div_eq_of_lt (by omega)]
          have : count / limit = 0 := Int.ediv_eq_zero_of_lt (by omega) (by omega)
          rw [this]
          rfl
      simp only [hq]
      split <;> omega
  refine ⟨key, ?_⟩
  rw [key]
  unfold intOfFloat
  have h1 : count / limit ≤ count ∨ count / limit ≤ 0 := by
    by_cases h0 : 0 ≤ count
    · exact Or.inl (Int.ediv_le_self _ h0)
    · exact Or.inr (ediv_nonpos_of_nonpos count limit (by omega) hl)
  rw [if_pos (by omega)]


theorem reportTotalPage_pos (count limit : Int) : 1 ≤ reportTotalPage count limit := by
  unfold reportTotalPage
  split
  · exact le_refl _
  · simp only []
    split <;> omega

theorem intOfFloat_of_range (x : Int) (h0 : 1 ≤ x) (h1 : x < 2 ^ 63) : intOfFloat x = x := by
  unfold intOfFloat
  rw [if_pos ⟨by omega, h1⟩]

/-- Below `2 ^ 53` the count gives a quotient in the range of `int`. -/
theorem reportTotalPage_lt (count limit : Int) (hc : count < 2 ^ 53) (hl : 0 < limit) :
    reportTotalPage count limit < 2 ^ 63 := by
  rw [(reportTotalPage_exact count limit hc hl).1]
  have h1 : count / limit ≤ count ∨ count / limit ≤ 0 := by
    by_cases h0 : 0 ≤ count
    · exact Or.inl (Int.ediv_le_self _ h0)
    · exact Or.inr (ediv_nonpos_of_nonpos count limit (by omega) hl)
  omega

theorem wrap64_of_range (x : Int) (h0 : -(2 ^ 63) ≤ x) (h1 : x < 2 ^ 63) : wrap64 x = x := by
  unfold wrap64
  omega

theorem buildURL_ne_empty (uri : String) (outletID : Nat) (limit page : Int) :
    buildURL uri outletID limit page ≠ "" := by
  intro h
  have hl := congrArg String.length h
  simp only [buildURL, String.length_append] at hl
  have h1 : "?".length = 1 := rfl
  have h2 : "".length = 0 := rfl
  omega

theorem buildLink_rule (uri : String) (outletID : Nat) (limit page totalPage : Int)
    (data : List TransactionReport) (hpage : 0 < page) :
    LinkRule uri outletID
      { Pagination := ⟨limit, page, totalPage⟩,
        Link := buildLink uri outletID limit page (decide (totalPage > 1)), Data := data } := by
  unfold LinkRule
  have hw : page < 2 ^ 63 - 1 → wrap64 (page + 1) = page + 1 := fun h =>
    wrap64_of_range (page + 1) (by omega) (by omega)
  by_cases hm : totalPage > 1 <;> by_cases hp : page > 1
  · simp only [buildLink, hm, hp, decide_True, if_true, Bool.and_self, ne_eq,
      buildURL_ne_empty, not_false_eq_true, and_self, true_and, forall_const, true_iff]
    exact ⟨fun h => by rw [hw h], trivial⟩
  · simp only [buildLink, hm, hp, decide_True, decide_False, if_true, Bool.false_and,
      Bool.false_eq_true, if_false, ne_eq, buildURL_ne_empty, not_false_eq_true, not_true_eq_false,
      false_and, and_self, true_and, forall_const, true_iff, false_iff, not_false_iff,
      IsEmpty.forall_iff, and_true]
    exact fun h => by rw [hw h]
  · simp [buildLink, hm, hp]
  · simp [buildLink, hm, hp]

theorem normalize_page_pos (req : TrxRequest) : 0 < (normalize req).Page ∧ 0 < (normalize req).Limit := by
  rw [(normalize_limit_page req).1, (normalize_limit_page req).2]
  constructor <;> split <;> omega

theorem resolve_page_pos (clock : Time) (req : TrxRequest) :
    0 < (resolve clock req).Page ∧ 0 < (resolve clock req).Limit := by
  rw [(resolve_limit_page clock req).1, (resolve_limit_page clock req).2.1]
  constructor <;> split <;> omega

/-- C7 (as stated, refuted): for a total count of `2 ^ 63 - 1` and limit 1 the quotient of
`Report` is `2 ^ 63` as a `float64`: it is above 1, so the next link is returned, and it is
outside the range of `int`, so the `total_page` of the pagination block is `-2 ^ 63`, which is
not above 1. -/
theorem report_next_link_without_pages :
    (match Report ⟨fun _ => .ok ([], 2 ^ 63 - 1), fun _ => .ok []⟩ (jan2024 1)
        (rangeRequest (jan2024 1) (jan2024 31) 1 1) with
      | .ok resp => some (resp.Pagination.TotalPage, resp.Link.NextPage)
      | .error _ => none)
      = some (-(2 ^ 63), "http://localhost:3000/report?limit=1&page=2") := by
  decide!

/-- C7 (amended): for `Report` and `Reporting` and every request on which the fetch succeeds,
the next link is non-empty exactly when `total_page > 1` and then carries the page plus one; the
previous link is non-empty exactly when the page is above 1 and `total_page > 1` and then
carries the page minus one.  For `Report` the quotient
`math.Floor(float64(count) / float64(limit))` is below `2 ^ 63`, in the range of `int`, as it is
for every count below `2 ^ 53` (`reportTotalPage_lt`). -/
theorem links_follow_total_page (repo : TransactionRepository) (clock : Time) (req : TrxRequest) :
    (∀ res count resp, repo.Report (reportFilter clock (normalize req)) = .ok (res, count) →
      reportTotalPage count (normalize req).Limit < 2 ^ 63 → Report repo clock req = .ok resp →
      LinkRule "http://localhost:3000/report" req.OutletID resp) ∧
    (∀ resp, (Reporting repo clock req).2 = .ok resp →
      LinkRule "http://localhost:3000/reporting" req.OutletID resp) := by
  constructor
  · intro res count resp h hc hr
    simp only [Report, h] at hr
    injection hr with hr
    subst hr
    rw [(normalize_dates req).2.2.1, intOfFloat_of_range _ (reportTotalPage_pos _ _) hc]
    exact buildLink_rule _ _ _ _ _ _ (normalize_page_pos req).1
  · intro resp hr
    simp only [Reporting] at hr
    split at hr
    · simp at hr
    · injection hr with hr
      subst hr
      rw [(resolve_limit_page clock req).2.2]
      exact buildLink_rule _ _ _ _ _ _ (resolve_page_pos clock req).1

theorem links_follow_total_page_witness :
    LinkRule "http://localhost:3000/report" 0
      { Pagination := ⟨10, 1, 2⟩,
        Link := ⟨"http://localhost:3000/report?limit=10&page=1",
          "http://localhost:3000/report?limit=10&page=2", ""⟩,
        Data := [] } ∧
    LinkRule "http://localhost:3000/reporting" 0
      { Pagination := ⟨10, 2, 3⟩,
        Link := ⟨"http://localhost:3000/reporting?limit=10&page=2",
          "http://localhost:3000/reporting?limit=10&page=3",
          "http://localhost:3000/reporting?limit=10&page=1"⟩,
        Data := [10, 11, 12, 13, 14, 15, 16, 17, 18, 19, 20].map fun k => ⟨jan2024 k, "0"⟩ } :=
  ⟨(links_follow_total_page ⟨fun _ => .ok ([], 20), fun _ => .ok []⟩ (jan2024 1)
      (rangeRequest (jan2024 1) (jan2024 31) 10 1)).1 [] 20 _ rfl (by decide!) rfl,
   (links_follow_total_page (fixedRepo []) (jan2024 1)
      (rangeRequest (jan2024 1) (jan2024 31) 10 2)).2 _ rfl⟩

theorem ceilDiv_eq_ceil (a b : Int) (hb : 0 < b) : ceilDiv a b = ⌈(a : ℚ) / (b : ℚ)⌉ := by
  unfold ceilDiv
  have hc : ((b.toNat : ℕ) : ℤ) = b := Int.toNat_of_nonneg hb.le
  have hf := Rat.floor_intCast_div_natCast (-a) b.toNat
  have hq : ((b.toNat : ℕ) : ℚ) = (b : ℚ) := by
    rw [← Int.cast_natCast, hc]
  rw [hq, hc] at hf
  rw [← hf, ← Int.ceil_neg]
  congr 1
  push_cast
  ring

/-- C6: for every request with a valid range on which the fetch succeeds, the `total_page` of
`Reporting` is `max(1, ceil(totalDays / limit))` with the normalised (positive) limit and
`totalDays = ceil(hours(endDate - startDate) / 24)`; the rows fetched play no part in it. -/
theorem reporting_total_page (repo : TransactionRepository) (clock : Time) (req : TrxRequest)
    (resp : TrxResponse) (hv : req.IsValidRangeDate = true)
    (h : (Reporting repo clock req).2 = .ok resp) :
    resp.Pagination.Limit = (if req.Limit ≤ 0 then 10 else req.Limit) ∧
    0 < resp.Pagination.Limit ∧
    resp.Pagination.TotalPage
      = max 1 ⌈((totalDays req.StartDate req.EndDate : ℤ) : ℚ) / (resp.Pagination.Limit : ℚ)⌉ ∧
    totalDays req.StartDate req.EndDate
      = ⌈((req.EndDate.Sub req.StartDate : ℤ) : ℚ) / 3600000000000 / 24⌉ := by
  have hr := resolve_valid clock req hv
  have hl := (normalize_limit_page req).1
  have hpos := (normalize_page_pos req).2
  obtain ⟨hs, he, _⟩ := normalize_dates req
  simp only [Reporting, hr] at h
  split at h
  · simp at h
  · injection h with h
    subst h
    simp only [hs, he]
    refine ⟨hl, hpos, ?_, ?_⟩
    · rw [← ceilDiv_eq_ceil _ _ hpos]
      unfold reportingTotalPage
      simp only
      split <;> omega
    · unfold totalDays
      rw [ceilDiv_eq_ceil _ _ (by norm_num)]
      congr 1
      push_cast
      rw [div_div]
      norm_num

theorem reporting_total_page_witness :
    (10 : Int) = (if (10 : Int) ≤ 0 then 10 else 10) ∧ (0 : Int) < 10 ∧
    (3 : Int) = max 1 ⌈((totalDays (jan2024 1) (jan2024 31) : ℤ) : ℚ) / ((10 : ℤ) : ℚ)⌉ ∧
    totalDays (jan2024 1) (jan2024 31)
      = ⌈(((jan2024 31).Sub (jan2024 1) : ℤ) : ℚ) / 3600000000000 / 24⌉ :=
  reporting_total_page (fixedRepo []) (jan2024 1) (rangeRequest (jan2024 1) (jan2024 31) 10 1)
    { Pagination := ⟨10, 1, 3⟩,
      Link := ⟨"http://localhost:3000/reporting?limit=10&page=1",
        "http://localhost:3000/reporting?limit=10&page=2", ""⟩,
      Data := [1, 2, 3, 4, 5, 6, 7, 8, 9, 10].map fun k => ⟨jan2024 k, "0"⟩ }
    (by decide) rfl

/-! ## The day count -/

/-- C5 (as stated, refuted): from 2024-01-01 12:00 to 2024-01-02 06:00 UTC the interval touches
two calendar days, and `totalDays` is 1. -/
theorem total_days_not_calendar_days :
    (rangeRequest (Date 2024 1 1 12 0 0 UTC) (Date 2024 1 2 6 0 0 UTC) 10 1).IsValidRangeDate
      = true ∧
    totalDays (Date 2024 1 1 12 0 0 UTC) (Date 2024 1 2 6 0 0 UTC) = 1 ∧
    calendarDaysSpanned UTC (Date 2024 1 1 12 0 0 UTC) (Date 2024 1 2 6 0 0 UTC) = 2 ∧
    totalDays (Date 2024 1 1 12 0 0 UTC) (Date 2024 1 2 6 0 0 UTC)
      ≠ calendarDaysSpanned UTC (Date 2024 1 1 12 0 0 UTC) (Date 2024 1 2 6 0 0 UTC) := by
  decide

/-- C5 (amended): for a range with `startDate` not after `endDate` and no longer than the
largest `time.Duration`, and with both dates read at one and the same UTC offset (in a location
without clock changes, whichever it is), `totalDays` is the number of calendar days the interval
touches when the time of day of `endDate` is later than that of `startDate`, and one less than
that number otherwise. -/
theorem total_days_calendar_days (loc : Location) (startDate endDate : Time)
    (hle : startDate.sec ≤ endDate.sec)
    (hd : (endDate.sec - startDate.sec) * 1000000000 ≤ 2 ^ 63 - 1) :
    totalDays startDate endDate
      = if secOfDayIn loc startDate < secOfDayIn loc endDate
        then calendarDaysSpanned loc startDate endDate
        else calendarDaysSpanned loc startDate endDate - 1 := by
  have h1 : ¬ (endDate.sec - startDate.sec) * 1000000000 > 2 ^ 63 - 1 := by omega
  have h2 : ¬ (endDate.sec - startDate.sec) * 1000000000 < -(2 ^ 63) := by omega
  simp only [totalDays, ceilDiv, Time.Sub, h1, h2, if_false, calendarDaysSpanned, dayNumberIn,
    secOfDayIn, secondsPerDay]
  split <;> omega

theorem total_days_calendar_days_witness :
    totalDays (jan2024 1) (jan2024 31)
      = if secOfDayIn UTC (jan2024 1) < secOfDayIn UTC (jan2024 31)
        then calendarDaysSpanned UTC (jan2024 1) (jan2024 31)
        else calendarDaysSpanned UTC (jan2024 1) (jan2024 31) - 1 :=
  total_days_calendar_days UTC (jan2024 1) (jan2024 31) (by decide) (by decide)

/-! ## The resolved range -/

theorem isValidRangeDate_iff (req : TrxRequest) :
    req.IsValidRangeDate = true ↔
      (req.StartDate.sec ≠ 0 ∧ req.EndDate.sec ≠ 0 ∧ req.StartDate.sec ≤ req.EndDate.sec) := by
  simp only [TrxRequest.IsValidRangeDate, Time.IsZero, Time.After]
  by_cases h1 : req.StartDate.sec = 0 <;> by_cases h2 : req.EndDate.sec = 0 <;>
    by_cases h3 : req.EndDate.sec < req.StartDate.sec <;> simp [h1, h2, h3]
  omega

theorem month_of_clock (clock : Time) :
    (1 ≤ clock.Month ∧ clock.Month ≤ 12) ∧
    (1 : Int) ≤ lastDayOfMonth clock.Year clock.Month ∧
    lastDayOfMonth clock.Year clock.Month ≤ 31 := by
  have hm := clock.Month_range
  have hr := lastDayAux_range (isLeap clock.Year) clock.Month.toNat (by omega)
  have hmc : ((clock.Month.toNat : Nat) : Int) = clock.Month := Int.toNat_of_nonneg (by omega)
  rw [hmc] at hr
  rw [lastDayOfMonth_eq_aux]
  exact ⟨hm, by omega, hr.2⟩

theorem resolveRange_invalid (clock : Time) (req : TrxRequest)
    (h : req.IsValidRangeDate = false) :
    (resolveRange clock req).StartDate = Date clock.Year clock.Month 1 0 0 0 clock.loc ∧
    (resolveRange clock req).EndDate
      = Date clock.Year clock.Month (lastDayOfMonth clock.Year clock.Month) 23 59 59 clock.loc := by
  obtain ⟨hm, hl1, _⟩ := month_of_clock clock
  obtain ⟨hy, hmo, _⟩ := Date_fields clock.Year clock.Month 1 0 0 0 clock.loc hm
    ⟨le_refl _, hl1⟩ (by omega)
  obtain ⟨ey, em, ed⟩ := EndOfMonth_fields (Date clock.Year clock.Month 1 0 0 0 clock.loc)
  simp only [resolveRange, h, Bool.not_false, if_true, Time.Location, true_and]
  rw [ey, em, ed, hy, hmo]

/-- C8: `IsValidRangeDate` is true exactly when both dates are non-zero and the start date is
not after the end date.  Then the range `Reporting` fetches and walks is the requested one;
otherwise both dates are replaced by day 1 of the month of the clock at 00:00:00 and the last
day of that month at 23:59:59, in the location of the clock.  The collaborator is called on the
resolved range, the loop walks it, and the only error returned is the one of the collaborator. -/
theorem reporting_range_resolution (repo : TransactionRepository) (clock : Time)
    (req : TrxRequest) :
    (req.IsValidRangeDate = true ↔
      (req.StartDate.sec ≠ 0 ∧ req.EndDate.sec ≠ 0 ∧ req.StartDate.sec ≤ req.EndDate.sec)) ∧
    (req.IsValidRangeDate = true →
      (Reporting repo clock req).1.StartDate = req.StartDate ∧
      (Reporting repo clock req).1.EndDate = req.EndDate) ∧
    (req.IsValidRangeDate = false →
      (Reporting repo clock req).1.StartDate = Date clock.Year clock.Month 1 0 0 0 clock.loc ∧
      (Reporting repo clock req).1.EndDate
        = Date clock.Year clock.Month (lastDayOfMonth clock.Year clock.Month) 23 59 59 clock.loc ∧
      ((Reporting repo clock req).1.StartDate.Year = clock.Year ∧
        (Reporting repo clock req).1.StartDate.Month = clock.Month ∧
        (Reporting repo clock req).1.StartDate.Day = 1 ∧
        (Reporting repo clock req).1.StartDate.secOfDay = 0) ∧
      ((Reporting repo clock req).1.EndDate.Year = clock.Year ∧
        (Reporting repo clock req).1.EndDate.Month = clock.Month ∧
        (Reporting repo clock req).1.EndDate.Day = lastDayOfMonth clock.Year clock.Month ∧
        (Reporting repo clock req).1.EndDate.secOfDay = 23 * 3600 + 59 * 60 + 59)) ∧
    ((reportingFilter (Reporting repo clock req).1).StartDate = (Reporting repo clock req).1.StartDate ∧
      (reportingFilter (Reporting repo clock req).1).EndDate = (Reporting repo clock req).1.EndDate) ∧
    (∀ err, (Reporting repo clock req).2 = .error err →
      repo.Reporting (reportingFilter (Reporting repo clock req).1) = .error err) ∧
    (∀ res, repo.Reporting (reportingFilter (Reporting repo clock req).1) = .ok res →
      ∃ resp, (Reporting repo clock req).2 = .ok resp ∧
        resp.Data = (runLoop (Reporting repo clock req).1 res).data) := by
  have h1 : (Reporting repo clock req).1 = resolve clock req := by
    simp only [Reporting]
    split <;> rfl
  rw [h1]
  refine ⟨isValidRangeDate_iff req, ?_, ?_, ⟨rfl, rfl⟩, ?_, ?_⟩
  · intro hv
    rw [resolve_valid clock req hv]
    exact ⟨(normalize_dates req).1, (normalize_dates req).2.1⟩
  · intro hv
    have hn : (normalize req).IsValidRangeDate = false := (normalize_dates req).2.2.2.2.trans hv
    obtain ⟨hs, he⟩ := resolveRange_invalid clock (normalize req) hn
    obtain ⟨hm, hl1, hl2⟩ := month_of_clock clock
    unfold resolve
    rw [hs, he]
    refine ⟨rfl, rfl, ?_, ?_⟩
    · obtain ⟨a, b, c⟩ := Date_fields clock.Year clock.Month 1 0 0 0 clock.loc hm
        ⟨le_refl _, hl1⟩ (by omega)
      exact ⟨a, b, c, by
        simpa using (Date_absDays clock.Year clock.Month 1 0 0 0 clock.loc hm (by omega)).2⟩
    · obtain ⟨a, b, c⟩ := Date_fields clock.Year clock.Month
        (lastDayOfMonth clock.Year clock.Month) 23 59 59 clock.loc hm ⟨hl1, le_refl _⟩ (by omega)
      exact ⟨a, b, c,
        (Date_absDays clock.Year clock.Month _ 23 59 59 clock.loc hm (by omega)).2⟩
  · intro err h
    simp only [Reporting] at h
    split at h
    · next e hr =>
      simp only [Except.error.injEq] at h
      rw [hr, h]
    · simp at h
  · intro res h
    simp only [Reporting, h]
    exact ⟨_, rfl, rfl⟩

theorem reporting_range_resolution_witness :
    (Reporting (fixedRepo []) (Date 2024 2 10 13 0 0 ⟨25200⟩)
        (rangeRequest zeroTime zeroTime 10 1)).1.StartDate = Date 2024 2 1 0 0 0 ⟨25200⟩ ∧
    (Reporting (fixedRepo []) (Date 2024 2 10 13 0 0 ⟨25200⟩)
        (rangeRequest zeroTime zeroTime 10 1)).1.EndDate = Date 2024 2 29 23 59 59 ⟨25200⟩ ∧
    (Reporting (fixedRepo []) (jan2024 1) (rangeRequest (jan2024 15) (jan2024 20) 10 1)).1.StartDate
      = jan2024 15 :=
  ⟨((reporting_range_resolution (fixedRepo []) (Date 2024 2 10 13 0 0 ⟨25200⟩)
      (rangeRequest zeroTime zeroTime 10 1)).2.2.1 (by decide)).1,
   ((reporting_range_resolution (fixedRepo []) (Date 2024 2 10 13 0 0 ⟨25200⟩)
      (rangeRequest zeroTime zeroTime 10 1)).2.2.1 (by decide)).2.1,
   ((reporting_range_resolution (fixedRepo []) (jan2024 1)
      (rangeRequest (jan2024 15) (jan2024 20) 10 1)).2.1 (by decide)).1⟩

/-! ## The walk of the day loop -/

theorem ordinalsFromTo_nil (lo hi : Int) (h : hi < lo) : ordinalsFromTo lo hi = [] := by
  have h0 : (hi + 1 - lo).toNat = 0 := by omega
  simp [ordinalsFromTo, h0]

theorem ordinalsFromTo_cons (lo hi : Int) (h : lo ≤ hi) :
    ordinalsFromTo lo hi = lo :: ordinalsFromTo (lo + 1) hi := by
  have h0 : (hi + 1 - lo).toNat = (hi + 1 - (lo + 1)).toNat + 1 := by omega
  simp only [ordinalsFromTo, h0, List.range_succ_eq_map, List.map_cons, List.map_map]
  refine congrArg₂ _ (by simp) ?_
  apply List.map_congr_left
  intro k _
  simp only [Function.comp, Nat.succ_eq_add_one]
  push_cast
  ring

theorem mem_ordinalsFromTo (lo hi i : Int) : i ∈ ordinalsFromTo lo hi ↔ (lo ≤ i ∧ i ≤ hi) := by
  simp only [ordinalsFromTo, List.mem_map, List.mem_range]
  constructor
  · rintro ⟨k, hk, rfl⟩
    omega
  · intro h
    exact ⟨(i - lo).toNat, by omega, by omega⟩

theorem windowOrdinals_eq (days prevPage nextPage : Int) (fuel : Nat) (i : Int) :
    windowOrdinals days prevPage nextPage fuel i
      = ordinalsFromTo (max i prevPage) (min (min days nextPage) (i + fuel - 1)) := by
  induction fuel generalizing i with
  | zero =>
    rw [ordinalsFromTo_nil _ _ (by omega)]
    rfl
  | succ n ih =>
    simp only [windowOrdinals]
    by_cases h1 : i ≤ days
    · rw [if_pos h1]
      by_cases h2 : i < prevPage
      · rw [if_pos h2, ih]
        have e1 : max (i + 1) prevPage = max i prevPage := by omega
        have e2 : i + 1 + (n : Int) - 1 = i + ((n + 1 : Nat) : Int) - 1 := by push_cast; ring
        rw [e1, e2]
      · rw [if_neg h2]
        by_cases h3 : i > nextPage
        · rw [if_pos h3, ordinalsFromTo_nil _ _ (by omega)]
        · rw [if_neg h3, ih]
          have e0 : max i prevPage = i := by omega
          have e1 : max (i + 1) prevPage = i + 1 := by omega
          have e2 : i + 1 + (n : Int) - 1 = i + ((n + 1 : Nat) : Int) - 1 := by push_cast; ring
          rw [e0, e1, e2, ordinalsFromTo_cons i _ (by push_cast; omega)]
    · rw [if_neg h1, ordinalsFromTo_nil _ _ (by omega)]

theorem dayLoop_eq_foldl (env : LoopEnv) (fuel : Nat) (i : Int) (st : LoopState) :
    dayLoop env fuel i st
      = (windowOrdinals env.days env.prevPage env.nextPage fuel i).foldl
          (fun s j => loopBody env j s) st := by
  induction fuel generalizing i st with
  | zero => rfl
  | succ n ih =>
    simp only [dayLoop, windowOrdinals]
    by_cases h1 : i ≤ env.days
    · rw [if_pos h1, if_pos h1]
      by_cases h2 : i < env.prevPage
      · rw [if_pos h2, if_pos h2, ih]
      · rw [if_neg h2, if_neg h2]
        by_cases h3 : i > env.nextPage
        · rw [if_pos h3, if_pos h3]
          rfl
        · rw [if_neg h3, if_neg h3, ih]
          rfl
    · rw [if_neg h1, if_neg h1]
      rfl

theorem runLoop_eq_foldl (req : TrxRequest) (res : List TransactionReport) :
    runLoop req res
      = (visitedOrdinals req).foldl (fun s j => loopBody (loopEnv req res) j s)
          (initState req) := by
  unfold runLoop
  rw [dayLoop_eq_foldl, windowOrdinals_eq]
  have e : ordinalsFromTo (max 1 (loopEnv req res).prevPage)
      (min (min (loopEnv req res).days (loopEnv req res).nextPage)
        (1 + ((totalDays req.StartDate req.EndDate).toNat : Int) - 1))
      = visitedOrdinals req := by
    simp only [visitedOrdinals, loopEnv]
    by_cases hd : 0 ≤ totalDays req.StartDate req.EndDate
    · have : ((totalDays req.StartDate req.EndDate).toNat : Int)
          = totalDays req.StartDate req.EndDate := Int.toNat_of_nonneg hd
      rw [this]
      congr 1
      omega
    · rw [ordinalsFromTo_nil _ _ (by omega), ordinalsFromTo_nil _ _ (by omega)]
  rw [e]

/-- The loop with more fuel than `totalDays` gives the same state: the loop always ends. -/
theorem dayLoop_fuel_stable (req : TrxRequest) (res : List TransactionReport) (extra : Nat) :
    dayLoop (loopEnv req res) ((totalDays req.StartDate req.EndDate).toNat + extra) 1
        (initState req)
      = runLoop req res := by
  unfold runLoop
  rw [dayLoop_eq_foldl, dayLoop_eq_foldl, windowOrdinals_eq, windowOrdinals_eq]
  congr 2
  simp only [loopEnv]
  push_cast
  omega

theorem reporting_fst (repo : TransactionRepository) (clock : Time) (req : TrxRequest) :
    (Reporting repo clock req).1 = resolve clock req := by
  simp only [Reporting]
  split <;> rfl

theorem reporting_ok (repo : TransactionRepository) (clock : Time) (req : TrxRequest)
    (resp : TrxResponse) (h : (Reporting repo clock req).2 = .ok resp) :
    ∃ res, repo.Reporting (reportingFilter (resolve clock req)) = .ok res ∧
      resp.Data = (runLoop (resolve clock req) res).data ∧
      resp.Pagination = ⟨(resolve clock req).Limit, (resolve clock req).Page,
        reportingTotalPage (totalDays (resolve clock req).StartDate (resolve clock req).EndDate)
          (resolve clock req).Limit⟩ := by
  simp only [Reporting] at h
  split at h
  · simp at h
  · next res hr =>
    injection h with h
    subst h
    exact ⟨res, hr, rfl, rfl⟩

theorem monthName_table : ∀ a : Nat, a < 13 → ∀ b : Nat, b < 13 →
    (1 ≤ a ∧ 1 ≤ b ∧ monthName a = monthName b) → a = b := by
  decide!

theorem monthName_inj (a b : Int) (ha : 1 ≤ a ∧ a ≤ 12) (hb : 1 ≤ b ∧ b ≤ 12)
    (h : monthName a = monthName b) : a = b := by
  have hac : ((a.toNat : Nat) : Int) = a := Int.toNat_of_nonneg (by omega)
  have hbc : ((b.toNat : Nat) : Int) = b := Int.toNat_of_nonneg (by omega)
  have ht := monthName_table a.toNat (by omega) b.toNat (by omega)
  rw [hac, hbc] at ht
  have := ht ⟨by omega, by omega, h⟩
  omega

theorem sameDayMonth_iff (date : Time) (v : TransactionReport) :
    ((date.Day == v.Date.Day) && (monthName date.Month == monthName v.Date.Month)) = true ↔
      sameDayMonth date v := by
  simp only [Bool.and_eq_true, beq_iff_eq, sameDayMonth]
  constructor
  · rintro ⟨h1, h2⟩
    exact ⟨h1, monthName_inj _ _ date.Month_range v.Date.Month_range h2⟩
  · rintro ⟨h1, h2⟩
    exact ⟨h1, by rw [h2]⟩

theorem findOmzet_cases (date : Time) (skip : Nat) (l : List TransactionReport) (i0 : Nat) :
    (findOmzet date skip l i0 = ("0", skip) ∧ ∀ v ∈ l, ¬ sameDayMonth date v) ∨
    (∃ pre v post, l = pre ++ v :: post ∧ (∀ u ∈ pre, ¬ sameDayMonth date u) ∧
      sameDayMonth date v ∧ findOmzet date skip l i0 = (v.Omzet, i0 + pre.length)) := by
  induction l generalizing i0 with
  | nil => exact Or.inl ⟨rfl, fun v hv => by simp at hv⟩
  | cons a rest ih =>
    by_cases hm : sameDayMonth date a
    · refine Or.inr ⟨[], a, rest, rfl, fun u hu => by simp at hu, hm, ?_⟩
      simp only [findOmzet, (sameDayMonth_iff date a).2 hm, if_true, List.length_nil, add_zero]
    · have hne : ¬ ((date.Day == a.Date.Day) && (monthName date.Month == monthName a.Date.Month))
          = true := fun h => hm ((sameDayMonth_iff date a).1 h)
      rcases ih (i0 + 1) with ⟨h1, h2⟩ | ⟨pre, v, post, h1, h2, h3, h4⟩
      · refine Or.inl ⟨?_, ?_⟩
        · simp only [findOmzet, hne, if_false]
          rw [h1]
          simp
        · intro v hv
          rcases List.mem_cons.1 hv with rfl | hv
          · exact hm
          · exact h2 v hv
      · refine Or.inr ⟨a :: pre, v, post, by rw [h1]; rfl, ?_, h3, ?_⟩
        · intro u hu
          rcases List.mem_cons.1 hu with rfl | hu
          · exact hm
          · exact h2 u hu
        · simp only [findOmzet, hne, if_false, List.length_cons]
          rw [h4, if_neg (by decide)]
          simp only [Prod.mk.injEq, true_and]
          omega

theorem loopBody_day_one (env : LoopEnv) (i : Int) (st : LoopState) (hd : st.day = 1)
    (he : 1 ≤ env.startEndDay) :
    loopBody env i st
      = { day := 1
          skip := (findOmzet (rowDate env.start i) st.skip (env.res.drop st.skip) 0).2
          data := st.data ++ [⟨rowDate env.start i,
            (findOmzet (rowDate env.start i) st.skip (env.res.drop st.skip) 0).1⟩] } := by
  have e : (1 : Int) + i - 1 = i := by ring
  simp only [loopBody, hd, he, if_true, e, rowDate]

theorem loopEnv_startEndDay (req : TrxRequest) (res : List TransactionReport) :
    (1 : Int) ≤ (loopEnv req res).startEndDay := by
  have h := (EndOfMonth_fields req.StartDate).2.2
  have hr := (month_of_clock req.StartDate).2.1
  simp only [loopEnv]
  omega

theorem initState_day (req : TrxRequest) : (initState req).day = 1 :=
  (BeginningOfMonth_fields req.StartDate).2.2

theorem foldl_loopBody_day (env : LoopEnv) (he : 1 ≤ env.startEndDay) (js : List Int)
    (st : LoopState) (hd : st.day = 1) :
    (js.foldl (fun s j => loopBody env j s) st).day = 1 ∧
    (js.foldl (fun s j => loopBody env j s) st).data.map (fun r => r.Date)
      = st.data.map (fun r => r.Date) ++ js.map (rowDate env.start) := by
  induction js generalizing st with
  | nil => simp [hd]
  | cons j rest ih =>
    simp only [List.foldl_cons]
    have hb := loopBody_day_one env j st hd he
    obtain ⟨h1, h2⟩ := ih (loopBody env j st) (by rw [hb])
    refine ⟨h1, ?_⟩
    rw [h2, hb]
    simp

theorem Date_shift (t : Time) (i : Int) :
    Date t.Year t.Month i 0 0 0 t.loc
      = ⟨(BeginningOfMonth t).sec + (i - 1) * 86400, t.loc⟩ := by
  have hm := t.Month_range
  have h1 := Date_sec t.Year t.Month i 0 0 0 t.loc hm
  have h2 := Date_sec t.Year t.Month 1 0 0 0 t.loc hm
  have hl : (Date t.Year t.Month i 0 0 0 t.loc).loc = t.loc := rfl
  have hs : (Date t.Year t.Month i 0 0 0 t.loc).sec
      = (BeginningOfMonth t).sec + (i - 1) * 86400 := by
    unfold BeginningOfMonth
    rw [h1, h2]
    unfold ydayAux
    ring
  cases hd : Date t.Year t.Month i 0 0 0 t.loc with
  | mk s l =>
    rw [hd] at hs hl
    simp only at hs hl
    rw [hs, hl]

/-- C17: in `Reporting` the day counter is 1 before every iteration of the loop and the last
day of the month of the start date is at least 1, so the rollover branch is never taken: the
dates of the rows are `time.Date(start.Year(), start.Month(), i, ...)` in the location of the
start date for the visited ordinals `i`, which is the instant `i - 1` days after the beginning
of the month of the start date, whatever the day of the start date and whatever the end
date. -/
theorem reporting_rollover_unreachable (req : TrxRequest) (res : List TransactionReport) :
    (∀ n, (dayLoop (loopEnv req res) n 1 (initState req)).day = 1) ∧
    1 ≤ (loopEnv req res).startEndDay ∧
    (runLoop req res).data.map (fun r => r.Date)
      = (visitedOrdinals req).map
          (fun i => Date req.StartDate.Year req.StartDate.Month i 0 0 0 req.StartDate.Location) ∧
    (∀ i : Int, Date req.StartDate.Year req.StartDate.Month i 0 0 0 req.StartDate.Location
      = ⟨(BeginningOfMonth req.StartDate).sec + (i - 1) * 86400, req.StartDate.Location⟩) := by
  have he := loopEnv_startEndDay req res
  refine ⟨?_, he, ?_, fun i => Date_shift req.StartDate i⟩
  · intro n
    rw [dayLoop_eq_foldl]
    exact (foldl_loopBody_day _ he _ _ (initState_day req)).1
  · rw [runLoop_eq_foldl, (foldl_loopBody_day _ he _ _ (initState_day req)).2]
    simp [initState, loopEnv, rowDate]

/-! ## The amounts of the rows -/

theorem foldl_loopBody_zeroOrMatch (env : LoopEnv) (he : 1 ≤ env.startEndDay) (js : List Int)
    (st : LoopState) (hd : st.day = 1) (hst : ∀ row ∈ st.data, zeroOrMatch env.res row) :
    ∀ row ∈ (js.foldl (fun s j => loopBody env j s) st).data, zeroOrMatch env.res row := by
  induction js generalizing st with
  | nil => exact hst
  | cons j rest ih =>
    simp only [List.foldl_cons]
    have hb := loopBody_day_one env j st hd he
    apply ih (loopBody env j st) (by rw [hb])
    rw [hb]
    intro row hrow
    simp only [List.mem_append, List.mem_singleton] at hrow
    rcases hrow with hrow | rfl
    · exact hst row hrow
    · rcases findOmzet_cases (rowDate env.start j) st.skip (env.res.drop st.skip) 0 with
        ⟨h1, _⟩ | ⟨pre, v, post, h1, _, h3, h4⟩
      · left
        simp only [h1]
      · right
        refine ⟨v, List.mem_of_mem_drop (by rw [h1]; simp), h3, ?_⟩
        simp only [h4]

theorem reporting_amount_rows (repo : TransactionRepository) (clock : Time)
    (req : TrxRequest) (res : List TransactionReport) (resp : TrxResponse)
    (hres : repo.Reporting (reportingFilter (resolve clock req)) = .ok res)
    (hresp : (Reporting repo clock req).2 = .ok resp) :
    ∀ row ∈ resp.Data, zeroOrMatch res row := by
  obtain ⟨res', h1, h2, _⟩ := reporting_ok repo clock req resp hresp
  rw [hres] at h1
  injection h1 with h1
  subst h1
  rw [h2, runLoop_eq_foldl]
  exact foldl_loopBody_zeroOrMatch (loopEnv (resolve clock req) res)
    (loopEnv_startEndDay _ _) _ _ (initState_day _) (fun row h => by simp [initState] at h)

/-- C16: for every range, page, limit and every aggregate list, sorted or not, the amount of
each row `Reporting` returns is the literal `"0"` or the amount of an aggregate of the list
whose day of the month and month are those of the date of the row. -/
theorem reporting_amount_zero_or_match (repo : TransactionRepository) (clock : Time)
    (req : TrxRequest) (res : List TransactionReport) (resp : TrxResponse)
    (hres : repo.Reporting (reportingFilter (resolve clock req)) = .ok res)
    (hresp : (Reporting repo clock req).2 = .ok resp) :
    ∀ row ∈ resp.Data,
      row.Omzet = "0" ∨ ∃ v ∈ res, sameDayMonth row.Date v ∧ row.Omzet = v.Omzet := by
  obtain ⟨res', h1, h2, _⟩ := reporting_ok repo clock req resp hresp
  rw [hres] at h1
  injection h1 with h1
  subst h1
  rw [h2, runLoop_eq_foldl]
  exact foldl_loopBody_zeroOrMatch (loopEnv (resolve clock req) res)
    (loopEnv_startEndDay _ _) _ _ (initState_day _) (fun row h => by simp [initState] at h)

set_option maxRecDepth 100000 in
theorem reporting_amount_zero_or_match_witness :
    (⟨jan2024 12, "1200"⟩ : TransactionReport).Omzet = "0" ∨
      ∃ v ∈ januaryAggregates, sameDayMonth (⟨jan2024 12, "1200"⟩ : TransactionReport).Date v ∧
        (⟨jan2024 12, "1200"⟩ : TransactionReport).Omzet = v.Omzet :=
  reporting_amount_zero_or_match (fixedRepo januaryAggregates) (jan2024 1)
    (rangeRequest (jan2024 1) (jan2024 31) 10 2) januaryAggregates
    { Pagination := ⟨10, 2, 3⟩,
      Link := ⟨"http://localhost:3000/reporting?limit=10&page=2",
        "http://localhost:3000/reporting?limit=10&page=3",
        "http://localhost:3000/reporting?limit=10&page=1"⟩,
      Data := [10, 11, 12, 13, 14, 15, 16, 17, 18, 19, 20].map
        (fun i => ⟨jan2024 i, if i = 12 then "1200" else if i = 13 then "1300" else "0"⟩) }
    rfl rfl ⟨jan2024 12, "1200"⟩ (by decide)

theorem Time.absDays_eq (t : Time) :
    t.absDays = daysSinceEpoch t.Year + ydayAux (isLeap t.Year) t.Month t.Day := by
  obtain ⟨h0, h1, h2⟩ := yearDay_spec t.absDays
  obtain ⟨_, _, _, _, h3⟩ := monthDayAux_spec (isLeap (yearDay t.absDays).1)
    (yearDay t.absDays).2 h0 h1
  simp only [Time.Year, Time.Month, Time.Day, monthDay_eq_aux, h3, h2]

theorem absDays_of_sameDayMonth (date : Time) (v : TransactionReport)
    (h : sameDayMonth date v) (hy : v.Date.Year = date.Year) :
    v.Date.absDays = date.absDays := by
  rw [v.Date.absDays_eq, date.absDays_eq, hy, ← h.1, ← h.2]

theorem foldl_loopBody_matchOrZero (env : LoopEnv) (he : 1 ≤ env.startEndDay)
    (rows : List Int) (hs : inRowOrder env.start rows env.res) (js : List Int)
    (hsub : ∀ j ∈ js, j ∈ rows) (hj : js.Pairwise (· < ·))
    (st : LoopState) (hd : st.day = 1)
    (hc : ∀ u ∈ env.res.take st.skip, ∀ j ∈ js, ¬ sameDayMonth (rowDate env.start j) u)
    (hst : ∀ row ∈ st.data, matchOrZero env.res row) :
    ∀ row ∈ (js.foldl (fun s j => loopBody env j s) st).data, matchOrZero env.res row := by
  induction js generalizing st with
  | nil => exact hst
  | cons j rest ih =>
    simp only [List.foldl_cons]
    have hb := loopBody_day_one env j st hd he
    obtain ⟨hjhead, hjtail⟩ := List.pairwise_cons.1 hj
    have hjmem : j ∈ rows := hsub j (List.mem_cons_self _ _)
    have hsubtail : ∀ j' ∈ rest, j' ∈ rows := fun j' hj' => hsub j' (List.mem_cons_of_mem _ hj')
    have hsplit : env.res.take st.skip ++ env.res.drop st.skip = env.res :=
      List.take_append_drop _ _
    rcases findOmzet_cases (rowDate env.start j) st.skip (env.res.drop st.skip) 0 with
      ⟨h1, h2⟩ | ⟨pre, v, post, h1, h2, h3, h4⟩
    · apply ih hsubtail hjtail (loopBody env j st) (by rw [hb])
      · rw [hb, h1]
        intro u hu j' hj'
        exact hc u hu j' (List.mem_cons_of_mem _ hj')
      · rw [hb, h1]
        intro row hrow
        simp only [List.mem_append, List.mem_singleton] at hrow
        rcases hrow with hrow | rfl
        · exact hst row hrow
        · refine ⟨fun u hu hsame => ?_, fun _ => rfl⟩
          rw [← hsplit] at hu
          rcases List.mem_append.1 hu with hu | hu
          · exact absurd hsame (hc u hu j (List.mem_cons_self _ _))
          · exact absurd hsame (h2 u hu)
    · have hres : env.res = (env.res.take st.skip ++ pre) ++ v :: post := by
        rw [List.append_assoc, ← h1, hsplit]
      have hs' : inRowOrder env.start rows ((env.res.take st.skip ++ pre) ++ v :: post) := by
        rw [← hres]
        exact hs
      obtain ⟨_, hvp, hbefore⟩ := List.pairwise_append.1 hs'
      have hafter := (List.pairwise_cons.1 hvp).1
      have hvmem : v ∈ env.res := by
        rw [hres]
        simp
      apply ih hsubtail hjtail (loopBody env j st) (by rw [hb])
      · rw [hb, h4]
        intro u hu j' hj' hsame
        simp only [Nat.zero_add] at hu
        have hu' : u ∈ env.res.take st.skip ++ pre := by
          have hle : pre.length ≤ (env.res.take st.skip ++ pre).length := by
            simp
          have ht : List.take pre.length env.res
              = List.take pre.length (env.res.take st.skip ++ pre) := by
            conv_lhs => rw [hres]
            exact List.take_append_of_le_length hle
          rw [ht] at hu
          exact List.mem_of_mem_take hu
        have h5 := hbefore u hu' v (List.mem_cons_self _ _) j' (hsubtail j' hj') j hjmem hsame h3
        have h6 := hjhead j' hj'
        omega
      · rw [hb, h4]
        intro row hrow
        simp only [List.mem_append, List.mem_singleton] at hrow
        rcases hrow with hrow | rfl
        · exact hst row hrow
        · refine ⟨fun u hu hsame => ?_, fun hno => absurd h3 (hno v hvmem)⟩
          rw [hres] at hu
          rcases List.mem_append.1 hu with hu | hu
          · have h5 := hbefore u hu v (List.mem_cons_self _ _) j hjmem j hjmem hsame h3
            omega
          · rcases List.mem_cons.1 hu with rfl | hu
            · rfl
            · have h5 := hafter u hu j hjmem j hjmem h3 hsame
              omega

theorem ydayAux_linear (leap : Bool) (m d : Int) :
    ydayAux leap m d = ydayAux leap m 1 + (d - 1) := by
  unfold ydayAux
  ring

theorem ordinalsFromTo_pairwise (lo hi : Int) : (ordinalsFromTo lo hi).Pairwise (· < ·) := by
  unfold ordinalsFromTo
  apply List.Pairwise.map _ _ (List.pairwise_lt_range _)
  intro a b h
  omega

theorem rowDate_absDays (start : Time) (i : Int) :
    (rowDate start i).absDays = (BeginningOfMonth start).absDays + (i - 1) := by
  have h := Date_shift start i
  have hl : (BeginningOfMonth start).loc = start.loc := rfl
  unfold rowDate Time.Location
  rw [h]
  simp only [Time.absDays, hl, secondsPerDay]
  omega

/-- C4 (as stated, refuted): for the aggregates of 2023-01-05 and 2024-01-03, which are strictly
ascending by date and share no day and month, and the range 2023-01-01 to 2024-01-31, page 1,
limit 10, the row of January 3 takes the amount of the second aggregate and the row of January 5
is left at `"0"` although the first aggregate has its day and month. -/
theorem reporting_sorted_input_missed_match :
    sortedByDate twoYearAggregates ∧ sortedByDay twoYearAggregates ∧
    distinctDayMonth twoYearAggregates ∧
    (rangeRequest (Date 2023 1 1 0 0 0 UTC) (jan2024 31) 10 1).IsValidRangeDate = true ∧
    (dataOf (Reporting (fixedRepo twoYearAggregates) (jan2024 1)
        (rangeRequest (Date 2023 1 1 0 0 0 UTC) (jan2024 31) 10 1))).map
        (List.map fun r => (civil r, r.Omzet))
      = some [((2023, 1, 1), "0"), ((2023, 1, 2), "0"), ((2023, 1, 3), "9"), ((2023, 1, 4), "0"),
          ((2023, 1, 5), "0"), ((2023, 1, 6), "0"), ((2023, 1, 7), "0"), ((2023, 1, 8), "0"),
          ((2023, 1, 9), "0"), ((2023, 1, 10), "0")] ∧
    (∃ v ∈ twoYearAggregates, sameDayMonth (Date 2023 1 5 0 0 0 UTC) v ∧ v.Omzet = "7") ∧
    ¬ (∀ row ∈ (dataOf (Reporting (fixedRepo twoYearAggregates) (jan2024 1)
        (rangeRequest (Date 2023 1 1 0 0 0 UTC) (jan2024 31) 10 1))).getD [],
      matchOrZero twoYearAggregates row) := by
  decide!

/-- A list sorted strictly ascending by calendar day, in which every aggregate that has the
day of the month and the month of a row is dated in the year of that row, is in the order of the
rows. -/
theorem inRowOrder_of_sortedByDay (start : Time) (rows : List Int)
    (res : List TransactionReport) (hsorted : sortedByDay res)
    (hyear : ∀ i ∈ rows, ∀ v ∈ res, sameDayMonth (rowDate start i) v →
      v.Date.Year = (rowDate start i).Year) :
    inRowOrder start rows res := by
  apply List.Pairwise.imp_of_mem _ hsorted
  intro u v hu hv hlt i hi j hj hui hvj
  have h1 := absDays_of_sameDayMonth _ u hui (hyear i hi u hu hui)
  have h2 := absDays_of_sameDayMonth _ v hvj (hyear j hj v hv hvj)
  rw [rowDate_absDays] at h1 h2
  omega

/-- C4 (amended): for every aggregate list whose order agrees with the order of the rows of the
page (whenever an aggregate comes before another in the list, every row of the page with the day
of the month and the month of the first comes before every row with those of the second, as in a
list sorted strictly ascending by date whose aggregates are dated on the days of the rows they
match), and for every range, page and limit, each row `Reporting` returns has as amount the
amount of the aggregate whose day of the month and month are those of the date of the row when
there is such an aggregate, and `"0"` otherwise. -/
theorem reporting_amounts_on_sorted (repo : TransactionRepository) (clock : Time)
    (req : TrxRequest) (res : List TransactionReport) (resp : TrxResponse)
    (hres : repo.Reporting (reportingFilter (resolve clock req)) = .ok res)
    (hresp : (Reporting repo clock req).2 = .ok resp)
    (horder : inRowOrder (resolve clock req).StartDate (visitedOrdinals (resolve clock req))
      res) :
    ∀ row ∈ resp.Data,
      (∀ v ∈ res, sameDayMonth row.Date v → row.Omzet = v.Omzet) ∧
      ((∀ v ∈ res, ¬ sameDayMonth row.Date v) → row.Omzet = "0") := by
  obtain ⟨res', h1, h2, _⟩ := reporting_ok repo clock req resp hresp
  rw [hres] at h1
  injection h1 with h1
  subst h1
  rw [h2, runLoop_eq_foldl]
  exact foldl_loopBody_matchOrZero (loopEnv (resolve clock req) res)
    (loopEnv_startEndDay _ _) (visitedOrdinals (resolve clock req)) horder
    (visitedOrdinals (resolve clock req)) (fun j hj => hj) (ordinalsFromTo_pairwise _ _)
    (initState (resolve clock req)) (initState_day _)
    (fun u hu => by simp [initState] at hu) (fun row h => by simp [initState] at h)

set_option maxRecDepth 100000 in
theorem reporting_amounts_on_sorted_witness :
    (∀ v ∈ yearEndAggregates,
      sameDayMonth (⟨Date 2024 1 1 0 0 0 UTC, "1"⟩ : TransactionReport).Date v →
        (⟨Date 2024 1 1 0 0 0 UTC, "1"⟩ : TransactionReport).Omzet = v.Omzet) ∧
    ((∀ v ∈ yearEndAggregates,
      ¬ sameDayMonth (⟨Date 2024 1 1 0 0 0 UTC, "1"⟩ : TransactionReport).Date v) →
        (⟨Date 2024 1 1 0 0 0 UTC, "1"⟩ : TransactionReport).Omzet = "0") :=
  reporting_amounts_on_sorted (fixedRepo yearEndAggregates) (jan2024 1)
    (rangeRequest (Date 2023 12 1 0 0 0 UTC) (jan2024 31) 40 1) yearEndAggregates
    { Pagination := ⟨40, 1, 2⟩,
      Link := ⟨"http://localhost:3000/reporting?limit=40&page=1",
        "http://localhost:3000/reporting?limit=40&page=2", ""⟩,
      Data := (ordinalsFromTo 1 40).map
        (fun i => ⟨Date 2023 12 i 0 0 0 UTC,
          if i = 31 then "31" else if i = 32 then "1" else "0"⟩) }
    rfl rfl (by decide!) ⟨Date 2024 1 1 0 0 0 UTC, "1"⟩ (by decide!)

/-- C11: there are a valid range, a page, a limit and an aggregate list not ascending by date
for which a row is left at `"0"` although an aggregate has its day and month: for the range
2024-01-01 to 2024-01-31, page 1, limit 10 and the aggregates of 5 and 3 January in that order,
the row of January 3 matches at index 1, the cursor is 1 when January 5 is searched, and the
aggregate of January 5 at index 0 is no longer looked at. -/
theorem reporting_unsorted_input_missed_match :
    (rangeRequest (jan2024 1) (jan2024 31) 10 1).IsValidRangeDate = true ∧
    ¬ sortedByDate unsortedAggregates ∧
    (dataOf (Reporting (fixedRepo unsortedAggregates) (jan2024 1)
        (rangeRequest (jan2024 1) (jan2024 31) 10 1))).map
        (List.map fun r => (civil r, r.Omzet))
      = some [((2024, 1, 1), "0"), ((2024, 1, 2), "0"), ((2024, 1, 3), "300"),
          ((2024, 1, 4), "0"), ((2024, 1, 5), "0"), ((2024, 1, 6), "0"), ((2024, 1, 7), "0"),
          ((2024, 1, 8), "0"), ((2024, 1, 9), "0"), ((2024, 1, 10), "0")] ∧
    cursorAfter (rangeRequest (jan2024 1) (jan2024 31) 10 1) unsortedAggregates 4 = 1 ∧
    (∃ v, unsortedAggregates[0]? = some v ∧ sameDayMonth (jan2024 5) v ∧ v.Omzet = "500") := by
  decide!

theorem floorDiv_eq_floor (a b : Int) (hb : 0 < b) : a / b = ⌊(a : ℚ) / (b : ℚ)⌋ := by
  have hc : ((b.toNat : ℕ) : ℤ) = b := Int.toNat_of_nonneg hb.le
  have hf := Rat.floor_intCast_div_natCast a b.toNat
  have hq : ((b.toNat : ℕ) : ℚ) = (b : ℚ) := by
    rw [← Int.cast_natCast, hc]
  rw [hq, hc] at hf
  exact hf.symm

/-- C12 (as stated, refuted): for a total count of `2 ^ 54 - 1` and limit 2 the `total_page`
of `Report` is 9007199254740992, and `max(1, floor(c / limit))` is 9007199254740991: the
conversion of the count to `float64` rounds it to `2 ^ 54`. -/
theorem report_total_page_rounded :
    (match Report ⟨fun _ => .ok ([], 2 ^ 54 - 1), fun _ => .ok []⟩ (jan2024 1)
        (rangeRequest (jan2024 1) (jan2024 31) 2 1) with
      | .ok resp => some resp.Pagination.TotalPage
      | .error _ => none) = some 9007199254740992 ∧
    max 1 ⌊(((2 ^ 54 - 1 : ℤ)) : ℚ) / ((2 : ℤ) : ℚ)⌋ = 9007199254740991 := by
  refine ⟨by decide!, ?_⟩
  rw [← floorDiv_eq_floor _ _ (by norm_num)]
  decide

/-- C12 (amended): for every request on which the fetch of `Report` succeeds with a total count
`c` below `2 ^ 53` (the integers that a `float64` holds exactly), the `total_page` is
`max(1, floor(c / limit))` with the normalised, positive limit: a floor, not a ceiling. -/
theorem report_total_page (repo : TransactionRepository) (clock : Time) (req : TrxRequest)
    (res : List TransactionReport) (count : Int) (resp : TrxResponse)
    (h : repo.Report (reportFilter clock (normalize req)) = .ok (res, count))
    (hc : count < 2 ^ 53) (hr : Report repo clock req = .ok resp) :
    resp.Pagination.Limit = (if req.Limit ≤ 0 then 10 else req.Limit) ∧
    0 < resp.Pagination.Limit ∧
    resp.Pagination.TotalPage = max 1 ⌊(count : ℚ) / (resp.Pagination.Limit : ℚ)⌋ := by
  have hl := (normalize_limit_page req).1
  have hpos := (normalize_page_pos req).2
  simp only [Report, h] at hr
  injection hr with hr
  subst hr
  refine ⟨hl, hpos, ?_⟩
  simp only
  rw [← floorDiv_eq_floor _ _ hpos]
  exact (reportTotalPage_exact count (normalize req).Limit hc hpos).2

theorem report_total_page_witness :
    (10 : Int) = (if (10 : Int) ≤ 0 then 10 else 10) ∧ (0 : Int) < 10 ∧
    (1 : Int) = max 1 ⌊((15 : ℤ) : ℚ) / ((10 : ℤ) : ℚ)⌋ :=
  report_total_page ⟨fun _ => .ok ([], 15), fun _ => .ok []⟩ (jan2024 1)
    (rangeRequest (jan2024 1) (jan2024 31) 10 1) [] 15
    { Pagination := ⟨10, 1, 1⟩,
      Link := ⟨"http://localhost:3000/report?limit=10&page=1", "", ""⟩, Data := [] }
    rfl (by decide) rfl

/-- C14: for every request on which the fetch succeeds, the pagination block of `Report` and of
`Reporting` has the requested limit when it is positive and 10 otherwise, the requested page
when it is positive and 1 otherwise, and so a positive limit and a positive page. -/
theorem pagination_normalised (repo : TransactionRepository) (clock : Time) (req : TrxRequest)
    (resp : TrxResponse)
    (h : Report repo clock req = .ok resp ∨ (Reporting repo clock req).2 = .ok resp) :
    resp.Pagination.Limit = (if 0 < req.Limit then req.Limit else 10) ∧
    resp.Pagination.Page = (if 0 < req.Page then req.Page else 1) ∧
    0 < resp.Pagination.Limit ∧ 0 < resp.Pagination.Page := by
  have key : resp.Pagination.Limit = (if req.Limit ≤ 0 then 10 else req.Limit) ∧
      resp.Pagination.Page = (if req.Page ≤ 0 then 1 else req.Page) := by
    rcases h with h | h
    · simp only [Report] at h
      split at h
      · simp at h
      · injection h with h
        subst h
        exact normalize_limit_page req
    · obtain ⟨_, _, _, hp⟩ := reporting_ok repo clock req resp h
      rw [hp]
      exact ⟨(resolve_limit_page clock req).1, (resolve_limit_page clock req).2.1⟩
  rw [key.1, key.2]
  refine ⟨?_, ?_, ?_, ?_⟩ <;> split <;> (try split) <;> omega

theorem pagination_normalised_witness :
    (10 : Int) = (if (0 : Int) < 0 then 0 else 10) ∧
    (1 : Int) = (if (0 : Int) < -3 then -3 else 1) ∧ (0 : Int) < 10 ∧ (0 : Int) < 1 :=
  pagination_normalised (fixedRepo []) (jan2024 1) (rangeRequest (jan2024 1) (jan2024 31) 0 (-3))
    { Pagination := ⟨10, 1, 1⟩,
      Link := ⟨"http://localhost:3000/report?limit=10&page=1", "", ""⟩, Data := [] }
    (Or.inl rfl)

theorem buildURL_eq_spec (uri : String) (outletID : Nat) (limit page : Int) :
    buildURL uri outletID limit page = specCurrentLink uri outletID limit page := by
  have e : uri ++ "?" ++ "limit=" = uri ++ "?limit=" := by
    rw [String.append_assoc]
    rfl
  unfold buildURL specCurrentLink
  rw [e]
  by_cases h : outletID = 0
  · subst h
    simp only [gt_iff_lt, lt_self_iff_false, if_false, if_true, String.append_empty]
  · have h1 : outletID > 0 := Nat.pos_of_ne_zero h
    simp only [h1, h, if_true, if_false, String.append_assoc]

/-- C13: for every request on which the fetch succeeds, the current link of `Report` and of
`Reporting` is the fixed base URL followed by the query string with `limit`, `outlet_id` (only
for a non-zero outlet) and `page` in that order, with the normalised limit and page: it is a
function of the outlet, the limit and the page alone. -/
theorem current_link (repo : TransactionRepository) (clock : Time) (req : TrxRequest) :
    (∀ resp, Report repo clock req = .ok resp →
      resp.Link.Current = specCurrentLink "http://localhost:3000/report" req.OutletID
        (if 0 < req.Limit then req.Limit else 10) (if 0 < req.Page then req.Page else 1)) ∧
    (∀ resp, (Reporting repo clock req).2 = .ok resp →
      resp.Link.Current = specCurrentLink "http://localhost:3000/reporting" req.OutletID
        (if 0 < req.Limit then req.Limit else 10) (if 0 < req.Page then req.Page else 1)) := by
  have hl : (if req.Limit ≤ 0 then (10 : Int) else req.Limit)
      = (if 0 < req.Limit then req.Limit else 10) := by
    split <;> split <;> omega
  have hp : (if req.Page ≤ 0 then (1 : Int) else req.Page)
      = (if 0 < req.Page then req.Page else 1) := by
    split <;> split <;> omega
  have hcur : ∀ (uri : String) (o : Nat) (l p : Int) (m : Bool),
      (buildLink uri o l p m).Current = buildURL uri o l p := by
    intro uri o l p m
    by_cases h1 : m = true <;> by_cases h2 : p > 1 <;> simp [buildLink, h1, h2]
  constructor
  · intro resp h
    simp only [Report] at h
    split at h
    · simp at h
    · injection h with h
      subst h
      simp only [hcur]
      rw [buildURL_eq_spec, (normalize_limit_page req).1, (normalize_limit_page req).2,
        (normalize_dates req).2.2.1, hl, hp]
  · intro resp h
    simp only [Reporting] at h
    split at h
    · simp at h
    · injection h with h
      subst h
      simp only [hcur]
      rw [buildURL_eq_spec, (resolve_limit_page clock req).1, (resolve_limit_page clock req).2.1,
        (resolve_limit_page clock req).2.2, hl, hp]

theorem current_link_witness :
    "http://localhost:3000/reporting?limit=10&outlet_id=7&page=2"
      = specCurrentLink "http://localhost:3000/reporting" 7
          (if (0 : Int) < 0 then 0 else 10) (if (0 : Int) < 2 then 2 else 1) :=
  (current_link (fixedRepo []) (jan2024 1)
    { rangeRequest (jan2024 1) (jan2024 31) 0 2 with OutletID := 7 }).2
    { Pagination := ⟨10, 2, 3⟩,
      Link := ⟨"http://localhost:3000/reporting?limit=10&outlet_id=7&page=2",
        "http://localhost:3000/reporting?limit=10&outlet_id=7&page=3",
        "http://localhost:3000/reporting?limit=10&outlet_id=7&page=1"⟩,
      Data := [10, 11, 12, 13, 14, 15, 16, 17, 18, 19, 20].map fun k => ⟨jan2024 k, "0"⟩ }
    rfl

/-! ## The first page and the default month -/

theorem reporting_dates (repo : TransactionRepository) (clock : Time) (req : TrxRequest)
    (resp : TrxResponse) (hresp : (Reporting repo clock req).2 = .ok resp) :
    resp.Data.map (fun r => r.Date)
      = (visitedOrdinals (resolve clock req)).map (rowDate (resolve clock req).StartDate) := by
  obtain ⟨res, _, h2, _⟩ := reporting_ok repo clock req resp hresp
  rw [h2, runLoop_eq_foldl,
    (foldl_loopBody_day _ (loopEnv_startEndDay _ res) _ _ (initState_day _)).2]
  simp [initState, loopEnv]

theorem Time.sec_eq (t : Time) :
    t.sec = (daysSinceEpoch t.Year + ydayAux (isLeap t.Year) t.Month t.Day) * 86400
      + t.secOfDay - t.loc.offset := by
  obtain ⟨h0, h1, h2⟩ := yearDay_spec t.absDays
  obtain ⟨_, _, _, _, h3⟩ := monthDayAux_spec (isLeap (yearDay t.absDays).1)
    (yearDay t.absDays).2 h0 h1
  have h4 : t.absDays * 86400 + t.secOfDay = t.sec + t.loc.offset := by
    simp only [Time.absDays, Time.secOfDay, secondsPerDay]
    omega
  simp only [Time.Year, Time.Month, Time.Day, monthDay_eq_aux, h3, h2]
  omega

theorem beginningOfMonth_of_first (t : Time) (hd : t.Day = 1) (hs : t.secOfDay = 0) :
    (BeginningOfMonth t).sec = t.sec := by
  have h1 := Date_sec t.Year t.Month 1 0 0 0 t.loc t.Month_range
  have h2 := t.sec_eq
  rw [hd, hs] at h2
  unfold BeginningOfMonth
  rw [h1]
  omega

theorem visitedOrdinals_first_page (req : TrxRequest) (hp : req.Page = 1)
    (hl0 : 0 < req.Limit) (hl1 : req.Limit < 2 ^ 63) :
    visitedOrdinals req
      = ordinalsFromTo 1 (min req.Limit (totalDays req.StartDate req.EndDate)) := by
  have e1 : wrap64 ((req.Page - 1) * req.Limit) = 0 := by
    rw [hp]
    simp [wrap64]
  have e2 : wrap64 (req.Page * req.Limit) = req.Limit := by
    rw [hp, one_mul]
    exact wrap64_of_range _ (by omega) hl1
  unfold visitedOrdinals
  rw [e1, e2, min_comm]
  rfl

/-- C15: for every valid range whose start date is midnight of the first day of a month, every
limit above 0 and page 1, the rows of `Reporting` are dated, in ascending order, the first
`min(limit, totalDays)` days from the start date on (row `i` is `i - 1` days after the start
date), each with amount `"0"` when no aggregate is supplied.  For 2024-01-01 to 2024-01-31 and
limit 10: `totalDays` is 30, the rows are January 1 to 10, `total_page` is 3, the current link
has page 1, the next link page 2 and there is no previous link. -/
theorem reporting_first_page :
    (∀ (repo : TransactionRepository) (clock : Time) (req : TrxRequest)
        (res : List TransactionReport) (resp : TrxResponse),
      req.IsValidRangeDate = true → req.StartDate.Day = 1 → req.StartDate.secOfDay = 0 →
      0 < req.Limit → req.Limit < 2 ^ 63 → req.Page = 1 →
      repo.Reporting (reportingFilter (resolve clock req)) = .ok res →
      (Reporting repo clock req).2 = .ok resp →
      resp.Data.map (fun r => r.Date)
        = (ordinalsFromTo 1 (min req.Limit (totalDays req.StartDate req.EndDate))).map
            (fun i => ⟨req.StartDate.sec + (i - 1) * 86400, req.StartDate.loc⟩) ∧
      (res = [] → ∀ row ∈ resp.Data, row.Omzet = "0")) ∧
    totalDays (jan2024 1) (jan2024 31) = 30 ∧
    (Reporting (fixedRepo []) (jan2024 1) (rangeRequest (jan2024 1) (jan2024 31) 10 1)).2
      = .ok { Pagination := ⟨10, 1, 3⟩,
              Link := ⟨"http://localhost:3000/reporting?limit=10&page=1",
                "http://localhost:3000/reporting?limit=10&page=2", ""⟩,
              Data := [1, 2, 3, 4, 5, 6, 7, 8, 9, 10].map fun k => ⟨jan2024 k, "0"⟩ } := by
  refine ⟨?_, by decide, rfl⟩
  intro repo clock req res resp hv hd hs hl0 hl1 hp hres hresp
  have hr := resolve_valid clock req hv
  have hn : normalize req = req := by
    have h1 : ¬ req.Limit ≤ 0 := by omega
    have h2 : ¬ req.Page ≤ 0 := by omega
    simp [normalize, h1, h2]
  rw [hn] at hr
  constructor
  · rw [reporting_dates repo clock req resp hresp, hr,
      visitedOrdinals_first_page req hp hl0 hl1]
    apply List.map_congr_left
    intro i _
    unfold rowDate Time.Location
    rw [Date_shift, beginningOfMonth_of_first _ hd hs]
  · intro hnil row hrow
    rcases reporting_amount_rows repo clock req res resp hres hresp row hrow with h | ⟨v, hv, _⟩
    · exact h
    · rw [hnil] at hv
      simp at hv

set_option maxRecDepth 100000 in
theorem reporting_first_page_witness :
    ([1, 2, 3, 4, 5, 6, 7, 8, 9, 10].map
        (fun k => (⟨jan2024 k, "0"⟩ : TransactionReport))).map (fun r => r.Date)
      = (ordinalsFromTo 1 (min 10 (totalDays (jan2024 1) (jan2024 31)))).map
          (fun i => ⟨(jan2024 1).sec + (i - 1) * 86400, (jan2024 1).loc⟩) :=
  (reporting_first_page.1 (fixedRepo []) (jan2024 1)
    (rangeRequest (jan2024 1) (jan2024 31) 10 1) []
    { Pagination := ⟨10, 1, 3⟩,
      Link := ⟨"http://localhost:3000/reporting?limit=10&page=1",
        "http://localhost:3000/reporting?limit=10&page=2", ""⟩,
      Data := [1, 2, 3, 4, 5, 6, 7, 8, 9, 10].map fun k => ⟨jan2024 k, "0"⟩ }
    (by decide) (by decide) (by decide) (by decide) (by decide) rfl rfl rfl).1

/-! ## The default month in the location of the clock -/

theorem Date_sec_offset (y m d h mi s o : Int) :
    Date y m d h mi s ⟨o⟩ = ⟨(Date y m d h mi s UTC).sec - o, ⟨o⟩⟩ := by
  simp [Date, UTC]

theorem zoneDate_of_settled (z : Zone) (y m d h mi s : Int)
    (hs : z.settled (Date y m d h mi s UTC).sec) :
    z.Date y m d h mi s = Date y m d h mi s ⟨z.dateOffset (Date y m d h mi s UTC).sec⟩ := by
  rw [Date_sec_offset]
  unfold Zone.Date
  simp only []
  generalize (Date y m d h mi s UTC).sec = W at hs ⊢
  simp only [Zone.settled, Zone.offsetAt] at hs
  simp only [Zone.instant, Zone.offsetAt, hs]

theorem wall_of_day (y m i : Int) (hm : 1 ≤ m ∧ m ≤ 12) :
    (Date y m i 0 0 0 UTC).sec = (Date y m 1 0 0 0 UTC).sec + (i - 1) * 86400 := by
  rw [Date_sec _ _ _ _ _ _ _ hm, Date_sec _ _ _ _ _ _ _ hm, ydayAux_linear (isLeap y) m i]
  ring

theorem wall_of_next_month (y m : Int) (hm : 1 ≤ m ∧ m ≤ 12) :
    (Date y (m + 1) 1 0 0 0 UTC).sec
      = (Date y m 1 0 0 0 UTC).sec + lastDayOfMonth y m * 86400 := by
  rw [Date_next_month_sec _ _ _ hm, Date_sec _ _ _ _ _ _ _ hm, lastDayOfMonth_eq_aux,
    ydayAux_linear (isLeap y) m (lastDayAux (isLeap y) m)]
  ring

theorem wall_of_last_second (y m : Int) (hm : 1 ≤ m ∧ m ≤ 12) :
    (Date y m (lastDayOfMonth y m) 23 59 59 UTC).sec
      = (Date y m 1 0 0 0 UTC).sec + lastDayOfMonth y m * 86400 - 1 := by
  rw [Date_sec _ _ _ _ _ _ _ hm, Date_sec _ _ _ _ _ _ _ hm,
    ydayAux_linear (isLeap y) m (lastDayOfMonth y m)]
  ring

theorem loopBodyIn_day_one (z : Zone) (env : LoopEnv) (i : Int) (st : LoopState)
    (hd : st.day = 1) (he : 1 ≤ env.startEndDay) :
    (loopBodyIn z env i st).day = 1 ∧
    (loopBodyIn z env i st).data.map (fun r => r.Date)
      = st.data.map (fun r => r.Date) ++ [z.Date env.start.Year env.start.Month i 0 0 0] := by
  have h : st.day ≤ env.startEndDay := by omega
  simp [loopBodyIn, hd, he]

theorem dayLoopIn_rows (z : Zone) (env : LoopEnv) (he : 1 ≤ env.startEndDay) (fuel : Nat)
    (i : Int) (st : LoopState) (hd : st.day = 1) :
    (dayLoopIn z env fuel i st).data.map (fun r => r.Date)
      = st.data.map (fun r => r.Date)
        ++ (windowOrdinals env.days env.prevPage env.nextPage fuel i).map
            (fun j => z.Date env.start.Year env.start.Month j 0 0 0) := by
  induction fuel generalizing i st with
  | zero => simp [dayLoopIn, windowOrdinals]
  | succ n ih =>
    simp only [dayLoopIn, windowOrdinals]
    by_cases h1 : i ≤ env.days
    · rw [if_pos h1, if_pos h1]
      by_cases h2 : i < env.prevPage
      · rw [if_pos h2, if_pos h2, ih _ _ hd]
      · rw [if_neg h2, if_neg h2]
        by_cases h3 : i > env.nextPage
        · rw [if_pos h3, if_pos h3]
          simp
        · rw [if_neg h3, if_neg h3]
          obtain ⟨b1, b2⟩ := loopBodyIn_day_one z env i st hd he
          rw [ih _ _ b1, b2]
          simp
    · rw [if_neg h1, if_neg h1]
      simp

theorem reportingIn_ok (z : Zone) (repo : TransactionRepository) (clock : Int)
    (req : TrxRequest) (resp : TrxResponse) (hinv : req.IsValidRangeDate = false)
    (h : (ReportingIn z repo clock req).2 = .ok resp) :
    (ReportingIn z repo clock req).1 = resolveRangeIn z clock (normalize req) ∧
    ∃ res, resp.Data
      = (dayLoopIn z (loopEnvIn z (resolveRangeIn z clock (normalize req)) res)
          (totalDays (resolveRangeIn z clock (normalize req)).StartDate
            (resolveRangeIn z clock (normalize req)).EndDate).toNat 1
          (initStateIn z (resolveRangeIn z clock (normalize req)))).data := by
  have hn : (normalize req).IsValidRangeDate = false := by
    rw [(normalize_dates req).2.2.2.2, hinv]
  simp only [ReportingIn, hn, Bool.false_eq_true, if_false] at h ⊢
  split at h
  · simp at h
  · next res hr =>
    simp only [hr]
    refine ⟨trivial, res, ?_⟩
    simp at h
    rw [← h]

theorem resolveRangeIn_default (z : Zone) (clock : Int) (req : TrxRequest)
    (hinv : req.IsValidRangeDate = false)
    (hmid : ∀ i ∈ ordinalsFromTo 1 (monthDaysIn z clock + 1),
      z.settled (monthStartIn z clock + (i - 1) * 86400))
    (hlast : z.settled (monthStartIn z clock + monthDaysIn z clock * 86400 - 1))
    (hsame : z.dateOffset (monthStartIn z clock + monthDaysIn z clock * 86400 - 1)
      = z.dateOffset (monthStartIn z clock + monthDaysIn z clock * 86400)) :
    (resolveRangeIn z clock req).StartDate
      = Date (z.instant clock).Year (z.instant clock).Month 1 0 0 0
          ⟨z.dateOffset (monthStartIn z clock)⟩ ∧
    (resolveRangeIn z clock req).EndDate
      = Date (z.instant clock).Year (z.instant clock).Month (monthDaysIn z clock) 23 59 59
          ⟨z.dateOffset (monthStartIn z clock + monthDaysIn z clock * 86400 - 1)⟩ ∧
    z.BeginningOfMonth (resolveRangeIn z clock req).StartDate
      = (resolveRangeIn z clock req).StartDate ∧
    (z.EndOfMonth (resolveRangeIn z clock req).StartDate).Day = monthDaysIn z clock ∧
    (resolveRangeIn z clock req).Limit = req.Limit ∧
    (resolveRangeIn z clock req).Page = req.Page := by
  obtain ⟨hm, hl1, hl2⟩ := month_of_clock (z.instant clock)
  unfold monthStartIn monthDaysIn at *
  generalize hy : (z.instant clock).Year = y at *
  generalize hmo : (z.instant clock).Month = m at *
  generalize hw : (Date y m 1 0 0 0 UTC).sec = w at *
  generalize hD : lastDayOfMonth y m = D at *
  -- the start date
  have hstart : z.Date y m 1 0 0 0 = Date y m 1 0 0 0 ⟨z.dateOffset w⟩ := by
    have := zoneDate_of_settled z y m 1 0 0 0
    rw [hw] at this
    apply this
    have h1 := hmid 1 ((mem_ordinalsFromTo _ _ _).2 ⟨le_refl _, by omega⟩)
    simpa using h1
  obtain ⟨sy, sm, sd⟩ := Date_fields y m 1 0 0 0 ⟨z.dateOffset w⟩ hm ⟨le_refl _, by omega⟩
    (by omega)
  have ss : (Date y m 1 0 0 0 ⟨z.dateOffset w⟩).secOfDay = 0 := by
    simpa using (Date_absDays y m 1 0 0 0 ⟨z.dateOffset w⟩ hm (by omega)).2
  have hbegin : z.BeginningOfMonth (Date y m 1 0 0 0 ⟨z.dateOffset w⟩)
      = Date y m 1 0 0 0 ⟨z.dateOffset w⟩ := by
    unfold Zone.BeginningOfMonth
    rw [sy, sm, hstart]
  -- the midnight that ends the month
  have hnw := wall_of_next_month y m hm
  rw [hw, hD] at hnw
  have hnext : z.Date y (m + 1) 1 0 0 0
      = Date y (m + 1) 1 0 0 0 ⟨z.dateOffset (w + D * 86400)⟩ := by
    have := zoneDate_of_settled z y (m + 1) 1 0 0 0
    rw [hnw] at this
    apply this
    have h1 := hmid (D + 1) ((mem_ordinalsFromTo _ _ _).2 ⟨by omega, le_refl _⟩)
    simpa using h1
  have hlw := wall_of_last_second y m hm
  rw [hw, hD] at hlw
  have hend : z.Date y m D 23 59 59
      = Date y m D 23 59 59 ⟨z.dateOffset (w + D * 86400 - 1)⟩ := by
    have := zoneDate_of_settled z y m D 23 59 59
    rw [hlw] at this
    exact this hlast
  have heom : z.EndOfMonth (Date y m 1 0 0 0 ⟨z.dateOffset w⟩)
      = Date y m D 23 59 59 ⟨z.dateOffset (w + D * 86400 - 1)⟩ := by
    unfold Zone.EndOfMonth Zone.AddDate
    rw [hbegin, sy, sm, sd, ss]
    simp only [add_zero]
    rw [hnext, Date_sec_offset y (m + 1) 1 0 0 0, Date_sec_offset y m D 23 59 59, hnw, hlw,
      ← hsame]
    simp only [Zone.instant]
    have e : w + D * 86400 - z.dateOffset (w + D * 86400 - 1) - 1
        = w + D * 86400 - 1 - z.dateOffset (w + D * 86400 - 1) := by ring
    rw [e, hlast]
  obtain ⟨ey, em, ed⟩ := Date_fields y m D 23 59 59 ⟨z.dateOffset (w + D * 86400 - 1)⟩ hm
    ⟨hl1, by omega⟩ (by omega)
  simp only [resolveRangeIn, hinv, Bool.not_false, if_true, hy, hmo]
  rw [hstart, heom, ey, em, ed, hend, hbegin]
  exact ⟨rfl, rfl, rfl, rfl, trivial, trivial⟩

theorem default_month_total_days_in (y m o1 oe : Int) (hm : 1 ≤ m ∧ m ≤ 12)
    (hfwd : o1 ≤ oe ∧ oe < o1 + 86399) :
    totalDays (Date y m 1 0 0 0 ⟨o1⟩) (Date y m (lastDayOfMonth y m) 23 59 59 ⟨oe⟩)
      = lastDayOfMonth y m := by
  have hl : 1 ≤ lastDayOfMonth y m ∧ lastDayOfMonth y m ≤ 31 := by
    have hr := lastDayAux_range (isLeap y) m.toNat (by omega)
    rw [Int.toNat_of_nonneg (by omega)] at hr
    rw [lastDayOfMonth_eq_aux]
    omega
  have hd : (Date y m (lastDayOfMonth y m) 23 59 59 ⟨oe⟩).sec - (Date y m 1 0 0 0 ⟨o1⟩).sec
      = lastDayOfMonth y m * 86400 - 1 - (oe - o1) := by
    rw [Date_sec_offset y m (lastDayOfMonth y m) 23 59 59, Date_sec_offset y m 1 0 0 0,
      wall_of_last_second y m hm]
    simp only []
    ring
  simp only [totalDays, ceilDiv, Time.Sub, hd]
  generalize lastDayOfMonth y m = D at hl ⊢
  have e1 : ¬ (D * 86400 - 1 - (oe - o1)) * 1000000000 > 2 ^ 63 - 1 := by omega
  have e2 : ¬ (D * 86400 - 1 - (oe - o1)) * 1000000000 < -(2 ^ 63) := by omega
  simp only [e1, e2, if_false]
  omega

theorem fixedZone_offsets (o x : Int) :
    (fixedZone o).offsetAt x = o ∧ (fixedZone o).dateOffset x = o ∧
    (fixedZone o).instant x = ⟨x, ⟨o⟩⟩ := by
  refine ⟨rfl, ?_, rfl⟩
  simp [Zone.dateOffset, Zone.lookup, fixedZone, lookupFrom]

/-- In a zone without clock changes every wall time is on the clocks and `time.Date` takes the
one offset of the zone for it. -/
theorem fixedZone_conditions (o wall wall2 : Int) :
    (fixedZone o).settled wall ∧
    (fixedZone o).dateOffset wall = (fixedZone o).dateOffset wall2 ∧
    (fixedZone o).dateOffset wall ≤ (fixedZone o).dateOffset wall2 ∧
    (fixedZone o).dateOffset wall2 < (fixedZone o).dateOffset wall + 86399 := by
  have h1 := (fixedZone_offsets o wall).2.1
  have h2 := (fixedZone_offsets o wall2).2.1
  have h3 := (fixedZone_offsets o (wall - (fixedZone o).dateOffset wall)).1
  refine ⟨?_, ?_, ?_, ?_⟩
  · show (fixedZone o).offsetAt (wall - (fixedZone o).dateOffset wall)
      = (fixedZone o).dateOffset wall
    rw [h3, h1]
  · rw [h1, h2]
  · rw [h1, h2]
  · rw [h1, h2]
    omega

theorem fixedZone_Date (o y m d h mi s : Int) :
    (fixedZone o).Date y m d h mi s = Date y m d h mi s ⟨o⟩ := by
  rw [Date_sec_offset]
  simp only [Zone.Date, (fixedZone_offsets o _).2.1, (fixedZone_offsets o _).2.2]

theorem fixedZone_months (o : Int) (t : Time) (ht : t.loc = ⟨o⟩) :
    (fixedZone o).BeginningOfMonth t = BeginningOfMonth t ∧
    (fixedZone o).EndOfMonth t = EndOfMonth t := by
  have hb : (fixedZone o).BeginningOfMonth t = BeginningOfMonth t := by
    simp only [Zone.BeginningOfMonth, BeginningOfMonth, fixedZone_Date, ht]
  refine ⟨hb, ?_⟩
  have hl : (BeginningOfMonth t).loc = ⟨o⟩ := by
    rw [← ht]
    rfl
  simp only [Zone.EndOfMonth, Zone.AddDate, EndOfMonth, Time.AddDate, Time.AddSeconds, hb,
    fixedZone_Date, (fixedZone_offsets o _).2.2, hl, Date_loc, Int.sub_eq_add_neg]

theorem fixedZone_resolveRange (o clock : Int) (req : TrxRequest) :
    resolveRangeIn (fixedZone o) clock req = resolveRange ⟨clock, ⟨o⟩⟩ req := by
  simp only [resolveRangeIn, resolveRange, fixedZone_Date, (fixedZone_offsets o _).2.2,
    Time.Location, (fixedZone_months o _ (Date_loc _ _ _ _ _ _ _)).2]

theorem fixedZone_dayLoop (o : Int) (env : LoopEnv) (hs : env.start.loc = ⟨o⟩)
    (he : env.endLocation = ⟨o⟩) (fuel : Nat) (i : Int) (st : LoopState) :
    dayLoopIn (fixedZone o) env fuel i st = dayLoop env fuel i st := by
  have hb : ∀ j s, loopBodyIn (fixedZone o) env j s = loopBody env j s := by
    intro j s
    simp only [loopBodyIn, loopBody, fixedZone_Date, Time.Location, hs, he]
  induction fuel generalizing i st with
  | zero => rfl
  | succ n ih => simp only [dayLoopIn, dayLoop, ih, hb]

/-- In a zone without clock changes `ReportingIn` is `Reporting` with the clock at the offset of
the zone. -/
theorem reportingIn_fixedZone (o : Int) (repo : TransactionRepository) (clock : Int)
    (req : TrxRequest) :
    ReportingIn (fixedZone o) repo clock req = Reporting repo ⟨clock, ⟨o⟩⟩ req := by
  by_cases hv : (normalize req).IsValidRangeDate = true
  · simp only [ReportingIn, hv, if_true, (fixedZone_offsets o _).2.2]
  · have hv : (normalize req).IsValidRangeDate = false := by simpa using hv
    have hr := resolveRange_invalid ⟨clock, ⟨o⟩⟩ (normalize req) hv
    have hs : (resolveRange ⟨clock, ⟨o⟩⟩ (normalize req)).StartDate.loc = ⟨o⟩ := by
      rw [hr.1]
      rfl
    have he : (resolveRange ⟨clock, ⟨o⟩⟩ (normalize req)).EndDate.loc = ⟨o⟩ := by
      rw [hr.2]
      rfl
    have henv : ∀ res, loopEnvIn (fixedZone o) (resolveRange ⟨clock, ⟨o⟩⟩ (normalize req)) res
        = loopEnv (resolveRange ⟨clock, ⟨o⟩⟩ (normalize req)) res := by
      intro res
      simp only [loopEnvIn, loopEnv, (fixedZone_months o _ hs).2]
    have hinit : initStateIn (fixedZone o) (resolveRange ⟨clock, ⟨o⟩⟩ (normalize req))
        = initState (resolveRange ⟨clock, ⟨o⟩⟩ (normalize req)) := by
      simp only [initStateIn, initState, (fixedZone_months o _ hs).1]
    simp only [ReportingIn, hv, Bool.false_eq_true, if_false, fixedZone_resolveRange, henv, hinit,
      Reporting, resolve, runLoop]
    split
    · rfl
    · next res hres =>
      rw [fixedZone_dayLoop o _ hs he]

/-- C18 (as stated, refuted): with the clock in America/New_York on 15 November 2024, a month in
which the clocks are set back, and a request without a valid range, the resolved range is from
1 November 00:00 at UTC-4 to 30 November 23:59:59 at UTC-5, which is 30 days and 1 hour less a
second, so `totalDays` is 31 where November has 30 days, and page 1 with limit 40 has 31 rows:
one for each day of November and one for 1 December. -/
theorem default_month_with_clocks_set_back :
    (rangeRequest zeroTime zeroTime 40 1).IsValidRangeDate = false ∧
    civil ⟨newYork2024.instant (Date 2024 11 15 17 0 0 UTC).sec, "0"⟩ = (2024, 11, 15) ∧
    lastDayOfMonth 2024 11 = 30 ∧
    (ReportingIn newYork2024 (fixedRepo []) (Date 2024 11 15 17 0 0 UTC).sec
        (rangeRequest zeroTime zeroTime 40 1)).1.StartDate
      = ⟨(Date 2024 11 1 4 0 0 UTC).sec, ⟨-14400⟩⟩ ∧
    (ReportingIn newYork2024 (fixedRepo []) (Date 2024 11 15 17 0 0 UTC).sec
        (rangeRequest zeroTime zeroTime 40 1)).1.EndDate
      = ⟨(Date 2024 12 1 4 59 59 UTC).sec, ⟨-18000⟩⟩ ∧
    totalDays
        (ReportingIn newYork2024 (fixedRepo []) (Date 2024 11 15 17 0 0 UTC).sec
          (rangeRequest zeroTime zeroTime 40 1)).1.StartDate
        (ReportingIn newYork2024 (fixedRepo []) (Date 2024 11 15 17 0 0 UTC).sec
          (rangeRequest zeroTime zeroTime 40 1)).1.EndDate = 31 ∧
    (dataOf (ReportingIn newYork2024 (fixedRepo []) (Date 2024 11 15 17 0 0 UTC).sec
        (rangeRequest zeroTime zeroTime 40 1))).map (List.map civil)
      = some ((ordinalsFromTo 1 30).map (fun i => ((2024 : Int), (11 : Int), i))
          ++ [(2024, 12, 1)]) := by
  decide!

/-- C18 (amended): when the requested range is invalid and `Reporting` falls back to the month
of the clock, in the location of the clock, and in that location

* each midnight of the month, the midnight that ends it and its last second are on the clocks
  (`hmid`, `hlast`: no clock change skips them),
* the offset `time.Date` takes is the same for the last second of the month and for the
  midnight that ends it (`hsame`), and
* the offset for the last second is not less than the offset for the first midnight, and
  greater by less than 86399 seconds (`hfwd`: the clocks are not set back in the month),

`totalDays` is the number of days `D` of that month, and page 1 with a limit of at least `D`
(and below `2 ^ 63`) returns one row for each calendar day 1 to `D` of that month, in ascending
order.  A location without clock changes has all three properties in every month
(`fixedZone_conditions`). -/
theorem reporting_default_month (z : Zone) (repo : TransactionRepository) (clock : Int)
    (req : TrxRequest) (resp : TrxResponse)
    (hinv : req.IsValidRangeDate = false) (hpage : req.Page = 1)
    (hlim : monthDaysIn z clock ≤ req.Limit) (hlim1 : req.Limit < 2 ^ 63)
    (hmid : ∀ i ∈ ordinalsFromTo 1 (monthDaysIn z clock + 1),
      z.settled (monthStartIn z clock + (i - 1) * 86400))
    (hlast : z.settled (monthStartIn z clock + monthDaysIn z clock * 86400 - 1))
    (hsame : z.dateOffset (monthStartIn z clock + monthDaysIn z clock * 86400 - 1)
      = z.dateOffset (monthStartIn z clock + monthDaysIn z clock * 86400))
    (hfwd : z.dateOffset (monthStartIn z clock)
        ≤ z.dateOffset (monthStartIn z clock + monthDaysIn z clock * 86400 - 1) ∧
      z.dateOffset (monthStartIn z clock + monthDaysIn z clock * 86400 - 1)
        < z.dateOffset (monthStartIn z clock) + 86399)
    (hresp : (ReportingIn z repo clock req).2 = .ok resp) :
    totalDays (ReportingIn z repo clock req).1.StartDate (ReportingIn z repo clock req).1.EndDate
      = monthDaysIn z clock ∧
    resp.Data.map civil
      = (ordinalsFromTo 1 (monthDaysIn z clock)).map
          (fun i => ((z.instant clock).Year, (z.instant clock).Month, i)) := by
  obtain ⟨hm, hl1, hl2⟩ := month_of_clock (z.instant clock)
  have hl0 : 0 < req.Limit := by
    unfold monthDaysIn at hlim
    omega
  have hn : normalize req = req := by
    have h1 : ¬ req.Limit ≤ 0 := by omega
    have h2 : ¬ req.Page ≤ 0 := by omega
    simp [normalize, h1, h2]
  obtain ⟨hfst, res, hdata⟩ := reportingIn_ok z repo clock req resp hinv hresp
  rw [hn] at hfst hdata
  obtain ⟨hs, he, hb, heD, hL, hP⟩ := resolveRangeIn_default z clock req hinv hmid hlast hsame
  have htd : totalDays (resolveRangeIn z clock req).StartDate (resolveRangeIn z clock req).EndDate
      = monthDaysIn z clock := by
    rw [hs, he]
    exact default_month_total_days_in _ _ _ _ hm hfwd
  obtain ⟨sy, sm, sd⟩ := Date_fields (z.instant clock).Year (z.instant clock).Month 1 0 0 0
    ⟨z.dateOffset (monthStartIn z clock)⟩ hm ⟨le_refl _, hl1⟩ (by omega)
  have hD1 : 1 ≤ monthDaysIn z clock := hl1
  have hrows := dayLoopIn_rows z (loopEnvIn z (resolveRangeIn z clock req) res)
    (by show 1 ≤ (z.EndOfMonth (resolveRangeIn z clock req).StartDate).Day; rw [heD]; exact hD1)
    (totalDays (resolveRangeIn z clock req).StartDate (resolveRangeIn z clock req).EndDate).toNat
    1 (initStateIn z (resolveRangeIn z clock req))
    (by show (z.BeginningOfMonth (resolveRangeIn z clock req).StartDate).Day = 1
        rw [hb, hs]; exact sd)
  rw [← hdata] at hrows
  have e1 : wrap64 ((req.Page - 1) * req.Limit) = 0 := by
    rw [hpage]
    simp [wrap64]
  have e2 : wrap64 (req.Page * req.Limit) = req.Limit := by
    rw [hpage, one_mul]
    exact wrap64_of_range _ (by omega) hlim1
  have hw : windowOrdinals (loopEnvIn z (resolveRangeIn z clock req) res).days
      (loopEnvIn z (resolveRangeIn z clock req) res).prevPage
      (loopEnvIn z (resolveRangeIn z clock req) res).nextPage
      (totalDays (resolveRangeIn z clock req).StartDate
        (resolveRangeIn z clock req).EndDate).toNat 1
      = ordinalsFromTo 1 (monthDaysIn z clock) := by
    rw [windowOrdinals_eq]
    simp only [loopEnvIn, hL, hP, e1, e2, htd]
    congr 1
    omega
  rw [hw] at hrows
  simp only [loopEnvIn, initStateIn, List.map_nil, List.nil_append, hs, sy, sm] at hrows
  rw [hfst]
  refine ⟨htd, ?_⟩
  have hc : resp.Data.map civil
      = (resp.Data.map (fun r => r.Date)).map (fun t => (t.Year, t.Month, t.Day)) := by
    rw [List.map_map]
    rfl
  rw [hc, hrows, List.map_map]
  apply List.map_congr_left
  intro i hi
  obtain ⟨hi1, hi2⟩ := (mem_ordinalsFromTo _ _ _).1 hi
  have hset := hmid i ((mem_ordinalsFromTo _ _ _).2 ⟨hi1, by omega⟩)
  have hz := zoneDate_of_settled z (z.instant clock).Year (z.instant clock).Month i 0 0 0
  rw [wall_of_day _ _ _ hm] at hz
  obtain ⟨a, b, c⟩ := Date_fields (z.instant clock).Year (z.instant clock).Month i 0 0 0
    ⟨z.dateOffset (monthStartIn z clock + (i - 1) * 86400)⟩ hm ⟨hi1, hi2⟩ (by omega)
  simp only [Function.comp]
  rw [hz hset]
  unfold monthStartIn at a b c
  rw [a, b, c]

set_option maxRecDepth 100000 in
theorem reporting_default_month_witness :
    totalDays (Date 2024 3 1 0 0 0 ⟨-18000⟩) (Date 2024 3 31 23 59 59 ⟨-14400⟩) = 31 ∧
    ((ordinalsFromTo 1 10).map
          (fun k => (⟨Date 2024 3 k 0 0 0 ⟨-18000⟩, "0"⟩ : TransactionReport))
        ++ (ordinalsFromTo 11 31).map
          (fun k => (⟨Date 2024 3 k 0 0 0 ⟨-14400⟩, "0"⟩ : TransactionReport))).map civil
      = (ordinalsFromTo 1 31).map (fun i => ((2024 : Int), (3 : Int), i)) :=
  reporting_default_month newYork2024 (fixedRepo []) (Date 2024 3 15 17 0 0 UTC).sec
    (rangeRequest zeroTime zeroTime 40 1)
    { Pagination := ⟨40, 1, 1⟩,
      Link := ⟨"http://localhost:3000/reporting?limit=40&page=1", "", ""⟩,
      Data := (ordinalsFromTo 1 10).map (fun k => ⟨Date 2024 3 k 0 0 0 ⟨-18000⟩, "0"⟩)
        ++ (ordinalsFromTo 11 31).map (fun k => ⟨Date 2024 3 k 0 0 0 ⟨-14400⟩, "0"⟩) }
    (by decide) rfl (by decide!) (by decide) (by decide!) (by decide!) (by decide!) (by decide!)
    rfl

end Transaction
